import Mathlib

/-!
# Verification of the yasbit block-synchronization engine

Shallow embedding of the yasbit sources (merkle_tree.rs, variable_integer.rs,
crypto.rs, transaction.rs, block.rs, config.rs, script.rs, message/*.rs,
valider.rs) and proofs of the specification claims about them.

Conventions:
* Rust `u8` bytes are `Nat` (values kept below 256 by construction);
  byte buffers (`Vec<u8>`, `&[u8]`, `[u8; n]`) are `List Nat`.
* Rust `u16`/`u32`/`u64`/`usize` values are `Nat`; wrapping casts are
  explicit `% 2^w`.
* Rust panics (`unwrap`, out-of-bounds indexing, explicit `panic!`,
  debug-mode integer underflow) are `Option.none`; `Result<T, E>` is
  `Except`/`Option` as noted at each definition.
* External cryptography from the openssl crate that the sources call
  (`sha256`) is implemented concretely (FIPS 180-4); ECDSA signature
  checking and RIPEMD-160, which the spec treats as opaque external
  primitives, are parameters of the functions that use them.
-/

set_option maxRecDepth 10000

/-! ## Little/big-endian byte encodings (`to_le_bytes`, `from_le_bytes`, …) -/

/-- `w`-byte little-endian encoding of `n` (the low `8*w` bits, as in
Rust `to_le_bytes` after a truncating cast). -/
def leBytes : Nat → Nat → List Nat
  | 0, _ => []
  | w + 1, n => (n % 256) :: leBytes w (n / 256)

/-- Decode a little-endian byte list (Rust `from_le_bytes`). -/
def fromLE (bs : List Nat) : Nat :=
  bs.foldr (fun b acc => b + 256 * acc) 0

/-- `w`-byte big-endian encoding of `n` (Rust `to_be_bytes`). -/
def beBytes (w n : Nat) : List Nat :=
  (leBytes w n).reverse

/-- Decode a big-endian byte list (Rust `from_be_bytes`). -/
def fromBE (bs : List Nat) : Nat :=
  bs.foldl (fun acc b => 256 * acc + b) 0

theorem leBytes_length (w n : Nat) : (leBytes w n).length = w := by
  induction w generalizing n with
  | zero => rfl
  | succ w ih => simp [leBytes, ih]

theorem fromLE_leBytes (w n : Nat) : fromLE (leBytes w n) = n % 256 ^ w := by
  induction w generalizing n with
  | zero => simp [leBytes, fromLE, Nat.mod_one]
  | succ w ih =>
      simp only [leBytes, fromLE, List.foldr] at *
      rw [ih (n / 256), pow_succ', Nat.mod_mul]

/-! ## SHA-256 (the `openssl::sha::sha256` primitive used by `crypto.rs`) -/

/-- 32-bit wrapping addition. -/
def add32 (a b : Nat) : Nat := (a + b) % 4294967296

/-- Rotate a 32-bit word right by `n`. -/
def rotr32 (n x : Nat) : Nat :=
  ((x >>> n) ||| (x <<< (32 - n))) % 4294967296

def shaCh (e f g : Nat) : Nat := (e &&& f) ^^^ ((e ^^^ 4294967295) &&& g)

def shaMaj (a b c : Nat) : Nat := (a &&& b) ^^^ (a &&& c) ^^^ (b &&& c)

def shaBigSigma0 (x : Nat) : Nat := rotr32 2 x ^^^ rotr32 13 x ^^^ rotr32 22 x

def shaBigSigma1 (x : Nat) : Nat := rotr32 6 x ^^^ rotr32 11 x ^^^ rotr32 25 x

def shaSmallSigma0 (x : Nat) : Nat := rotr32 7 x ^^^ rotr32 18 x ^^^ (x >>> 3)

def shaSmallSigma1 (x : Nat) : Nat := rotr32 17 x ^^^ rotr32 19 x ^^^ (x >>> 10)

/-- The 64 SHA-256 round constants. -/
def shaK : List Nat :=
  [1116352408, 1899447441, 3049323471, 3921009573, 961987163, 1508970993,
   2453635748, 2870763221, 3624381080, 310598401, 607225278, 1426881987,
   1925078388, 2162078206, 2614888103, 3248222580, 3835390401, 4022224774,
   264347078, 604807628, 770255983, 1249150122, 1555081692, 1996064986,
   2554220882, 2821834349, 2952996808, 3210313671, 3336571891, 3584528711,
   113926993, 338241895, 666307205, 773529912, 1294757372, 1396182291,
   1695183700, 1986661051, 2177026350, 2456956037, 2730485921, 2820302411,
   3259730800, 3345764771, 3516065817, 3600352804, 4094571909, 275423344,
   430227734, 506948616, 659060556, 883997877, 958139571, 1322822218,
   1537002063, 1747873779, 1955562222, 2024104815, 2227730452, 2361852424,
   2428436474, 2756734187, 3204031479, 3329325298]

/-- The eight SHA-256 working registers. -/
structure Sha8 where
  a : Nat
  b : Nat
  c : Nat
  d : Nat
  e : Nat
  f : Nat
  g : Nat
  h : Nat

/-- The SHA-256 initial hash value. -/
def shaInit : Sha8 :=
  ⟨1779033703, 3144134277, 1013904242, 2773480762,
   1359893119, 2600822924, 528734635, 1541459225⟩

/-- One SHA-256 compression round. -/
def shaRound (st : Sha8) (k w : Nat) : Sha8 :=
  let t1 := add32 st.h (add32 (shaBigSigma1 st.e)
    (add32 (shaCh st.e st.f st.g) (add32 k w)))
  let t2 := add32 (shaBigSigma0 st.a) (shaMaj st.a st.b st.c)
  ⟨add32 t1 t2, st.a, st.b, st.c, add32 st.d t1, st.e, st.f, st.g⟩

/-- Run the 64 rounds over the round constants and message schedule. -/
def shaRounds : List Nat → List Nat → Sha8 → Sha8
  | k :: ks, w :: ws, st => shaRounds ks ws (shaRound st k w)
  | _, _, st => st

/-- Extend the schedule by `fuel` words; `ws` holds the schedule so far,
most recent word first. -/
def shaExpand : Nat → List Nat → List Nat
  | 0, ws => ws
  | fuel + 1, ws =>
      let nw := add32 (add32 (shaSmallSigma1 (ws.getD 1 0)) (ws.getD 6 0))
        (add32 (shaSmallSigma0 (ws.getD 14 0)) (ws.getD 15 0))
      shaExpand fuel (nw :: ws)

/-- Group bytes into 32-bit big-endian words. -/
def shaWords : List Nat → List Nat
  | a :: b :: c :: d :: rest => (((a * 256 + b) * 256 + c) * 256 + d) :: shaWords rest
  | _ => []

/-- SHA-256 padding: append `0x80`, zeros to 56 mod 64, and the 64-bit
big-endian bit length. -/
def shaPad (msg : List Nat) : List Nat :=
  let L := msg.length
  let zeros := (120 - (L + 1) % 64) % 64
  msg ++ 0x80 :: List.replicate zeros 0 ++ beBytes 8 (8 * L)

/-- Compress one 16-word block into the running hash value. -/
def shaBlock (st : Sha8) (block : List Nat) : Sha8 :=
  let w := (shaExpand 48 block.reverse).reverse
  let r := shaRounds shaK w st
  ⟨add32 st.a r.a, add32 st.b r.b, add32 st.c r.c, add32 st.d r.d,
   add32 st.e r.e, add32 st.f r.f, add32 st.g r.g, add32 st.h r.h⟩

/-- Fold `n` 16-word blocks of `ws` into the hash value. -/
def shaChunks : Nat → List Nat → Sha8 → Sha8
  | 0, _, st => st
  | n + 1, ws, st => shaChunks n (ws.drop 16) (shaBlock st (ws.take 16))

/-- SHA-256 of a byte list, as 32 digest bytes. -/
def sha256 (msg : List Nat) : List Nat :=
  let ws := shaWords (shaPad msg)
  let st := shaChunks (ws.length / 16) ws shaInit
  beBytes 4 st.a ++ beBytes 4 st.b ++ beBytes 4 st.c ++ beBytes 4 st.d ++
  beBytes 4 st.e ++ beBytes 4 st.f ++ beBytes 4 st.g ++ beBytes 4 st.h

/-! ## crypto.rs -/

/-- `crypto::hash32`: double SHA-256. -/
def hash32 (data : List Nat) : List Nat :=
  sha256 (sha256 data)

/-- `crypto::bytes_to_hash32`: reverse a 32-byte buffer into a hash
(`Err` for any other length, modelled as `none`). -/
def bytes_to_hash32 (data : List Nat) : Option (List Nat) :=
  if data.length = 32 then some data.reverse else none

/-- `crypto::hash32_to_bytes`: reverse a hash into its wire bytes. -/
def hash32_to_bytes (hash : List Nat) : List Nat :=
  hash.reverse

/-- One hex digit as a character, as `hex::encode` prints it. -/
def hexDigitChar (n : Nat) : Char :=
  if n < 10 then Char.ofNat (48 + n) else Char.ofNat (87 + n)

/-- `hex::encode`: lower-case hex display of a byte buffer. -/
def hexEncode (bs : List Nat) : String :=
  String.mk (bs.flatMap fun b => [hexDigitChar (b / 16), hexDigitChar (b % 16)])

/-- `"babar"` as bytes. -/
def babarBytes : List Nat := [0x62, 0x61, 0x62, 0x61, 0x72]

/-- Sanity check of the SHA-256 embedding against the `crypto.rs` test
vector `hash32("babar")`. -/
theorem hash32_babar :
    hexEncode (hash32 babarBytes) =
      "c24daaa67001fc358d73b30060abdfa53c5ceb53982d9052c3d91b1d3991eb40" := by
  decide

/-! ## variable_integer.rs -/

/-- `VariableInteger::bytes`: tag-prefixed little-endian encoding.  The
source takes prefixes of the 8-byte `to_le_bytes` buffer of the `u64`
value. -/
def VariableInteger.bytes (integer : Nat) : List Nat :=
  if integer < 0xFD then [integer]
  else if integer ≤ 0xFFFF then 0xFD :: (leBytes 8 integer).take 2
  else if integer ≤ 0xFFFFFFFF then 0xFE :: (leBytes 8 integer).take 4
  else 0xFF :: (leBytes 8 integer).take 8

/-- `VariableInteger::from_bytes`.  The source indexes `bytes[0]` and
slices `bytes[1..end_index]` without checks; an out-of-bounds panic is
`none`.  The copy of `bytes[1..end_index]` into a zeroed 8-byte buffer
before `u64::from_le_bytes` is `fromLE` of the short slice. -/
def VariableInteger.from_bytes (bytes : List Nat) : Option (Nat × Nat) :=
  match bytes with
  | [] => none
  | first_byte :: _ =>
      if first_byte < 0xFD then some (first_byte, 1)
      else
        let end_index : Nat :=
          if first_byte = 0xFD then 3 else if first_byte = 0xFE then 5 else 9
        if end_index ≤ bytes.length then
          some (fromLE ((bytes.drop 1).take (end_index - 1)), end_index)
        else none

/-- The encoded width implied by a VarInt's first byte. -/
def varintWidth (first_byte : Nat) : Nat :=
  if first_byte < 0xFD then 1
  else if first_byte = 0xFD then 3
  else if first_byte = 0xFE then 5
  else 9

theorem take_leBytes (w k n : Nat) (h : w ≤ k) :
    (leBytes k n).take w = leBytes w n := by
  induction w generalizing k n with
  | zero => simp [leBytes]
  | succ w ih =>
      cases k with
      | zero => omega
      | succ k => simp [leBytes, ih k (n / 256) (by omega)]

theorem VariableInteger.bytes_eq (v : Nat) :
    VariableInteger.bytes v =
      if v < 0xFD then [v]
      else if v ≤ 0xFFFF then 0xFD :: leBytes 2 v
      else if v ≤ 0xFFFFFFFF then 0xFE :: leBytes 4 v
      else 0xFF :: leBytes 8 v := by
  simp only [VariableInteger.bytes,
    take_leBytes 2 8 v (by omega), take_leBytes 4 8 v (by omega),
    take_leBytes 8 8 v (by omega)]

/-- C6.  VarInt round-trip: for every `v < 2^64`,
`VariableInteger::from_bytes (VariableInteger::new(v).bytes())` returns
`Ok((v, len))` with the minimal length for `v`'s range: 1 below `0xFD`,
3 (tag `0xFD` + two LE bytes) up to `0xFFFF`, 5 (tag `0xFE` + four) up
to `0xFFFFFFFF`, and 9 (tag `0xFF` + eight) otherwise. -/
theorem C6_varint_roundtrip (v : Nat) (h : v < 2 ^ 64) :
    VariableInteger.from_bytes (VariableInteger.bytes v) =
      some (v, if v < 0xFD then 1
        else if v ≤ 0xFFFF then 3
        else if v ≤ 0xFFFFFFFF then 5
        else 9) := by
  rw [VariableInteger.bytes_eq]
  by_cases h1 : v < 0xFD
  · simp [h1, VariableInteger.from_bytes]
  · by_cases h2 : v ≤ 0xFFFF
    · have hl : (leBytes 2 v).length = 2 := leBytes_length 2 v
      have hv : fromLE ((leBytes 2 v).take 2) = v := by
        rw [take_leBytes 2 2 v le_rfl, fromLE_leBytes]
        exact Nat.mod_eq_of_lt (by norm_num; omega)
      simp [h1, h2, VariableInteger.from_bytes, hl, hv]
    · by_cases h3 : v ≤ 0xFFFFFFFF
      · have hl : (leBytes 4 v).length = 4 := leBytes_length 4 v
        have hv : fromLE ((leBytes 4 v).take 4) = v := by
          rw [take_leBytes 4 4 v le_rfl, fromLE_leBytes]
          exact Nat.mod_eq_of_lt (by norm_num; omega)
        simp [h1, h2, h3, VariableInteger.from_bytes, hl, hv]
      · have hl : (leBytes 8 v).length = 8 := leBytes_length 8 v
        have hv : fromLE ((leBytes 8 v).take 8) = v := by
          rw [take_leBytes 8 8 v le_rfl, fromLE_leBytes]
          exact Nat.mod_eq_of_lt (by norm_num; omega)
        simp [h1, h2, h3, VariableInteger.from_bytes, hl, hv]

/-- Witness for C6 at `v = 0xFAFE` (the `test_16` vector). -/
theorem C6_varint_roundtrip_witness :
    VariableInteger.from_bytes (VariableInteger.bytes 0xFAFE) = some (0xFAFE, 3) := by
  have h := C6_varint_roundtrip 0xFAFE (by norm_num)
  simpa using h

/-- C10.  `VariableInteger::from_bytes` never reaches its declared error:
on any slice at least as long as the width implied by its first byte it
returns `Ok` with the little-endian value of the following bytes and
that width; slices shorter than the implied width (the empty slice
included) hit the out-of-bounds indexing instead. -/
theorem C10_varint_from_bytes_total (bs : List Nat) :
    (∀ b rest, bs = b :: rest → varintWidth b ≤ bs.length →
        VariableInteger.from_bytes bs =
          some (if b < 0xFD then b else fromLE (rest.take (varintWidth b - 1)),
            varintWidth b)) ∧
    (∀ b rest, bs = b :: rest → bs.length < varintWidth b →
        VariableInteger.from_bytes bs = none) ∧
    (bs = [] → VariableInteger.from_bytes bs = none) := by
  refine ⟨?_, ?_, ?_⟩
  · rintro b rest rfl hlen
    by_cases h1 : b < 0xFD
    · simp [VariableInteger.from_bytes, h1, varintWidth]
    · simp only [varintWidth, h1, if_false] at hlen ⊢
      simp only [VariableInteger.from_bytes, h1, if_false]
      rw [if_pos hlen]
      simp
  · rintro b rest rfl hlen
    by_cases h1 : b < 0xFD
    · simp [varintWidth, h1] at hlen
    · simp only [varintWidth, h1, if_false] at hlen
      simp only [VariableInteger.from_bytes, h1, if_false]
      rw [if_neg (by omega)]
  · rintro rfl; rfl

/-- Witness for C10: a three-byte `0xFD`-tagged slice decodes, a
truncated one does not. -/
theorem C10_varint_from_bytes_total_witness :
    VariableInteger.from_bytes [0xFD, 2, 1] = some (258, 3) ∧
    VariableInteger.from_bytes [0xFD, 2] = none := by
  constructor
  · have h := (C10_varint_from_bytes_total [0xFD, 2, 1]).1 0xFD [2, 1] rfl (by decide)
    rw [h]; decide
  · exact (C10_varint_from_bytes_total [0xFD, 2]).2.1 0xFD [2] rfl (by decide)

/-! ## merkle_tree.rs -/

/-- `MerkleTree::concat`: double-SHA-256 of two concatenated nodes. -/
def MerkleTree.concat (a b : List Nat) : List Nat :=
  hash32 (a ++ b)

/-- `MerkleTree::layer_up`.  Translated index-for-index from the source:
the loop runs `i` from `0` to `elements_len / 2` pairing `elements[i]`
with `elements[i + 1]`, and an odd layer appends the last element hashed
with itself. -/
def MerkleTree.layer_up (elements : List (List Nat)) : List (List Nat) :=
  let elements_len := elements.length
  let half := elements_len / 2
  let odd := elements_len % 2 = 1
  ((List.range half).map fun i =>
      MerkleTree.concat (elements.getD i []) (elements.getD (i + 1) [])) ++
    (if odd then
      [MerkleTree.concat (elements.getD (elements_len - 1) [])
        (elements.getD (elements_len - 1) [])]
     else [])

/-- `MerkleTree::root_rec`, with the recursion depth made explicit as
fuel (the source recursion is unbounded; on a layer of length ≥ 1 a
fuel of the layer length always suffices, and on the empty layer the
source never terminates, which is `none` here). -/
def MerkleTree.root_rec : Nat → List (List Nat) → Option (List Nat)
  | 0, _ => none
  | fuel + 1, elements =>
      if elements.length = 1 then some (elements.getD 0 [])
      else MerkleTree.root_rec fuel (MerkleTree.layer_up elements)

/-- `MerkleTree::root`: `None` on an empty tree. -/
def MerkleTree.root (elements : List (List Nat)) : Option (List Nat) :=
  if elements.isEmpty then none
  else MerkleTree.root_rec elements.length elements

/-- Four distinct 32-byte leaves used as the C1 failing input. -/
def mkLeaf (b : Nat) : List Nat := List.replicate 32 b

/-- `hash32(mkLeaf 1 ‖ mkLeaf 2)`. -/
def c1X : List Nat :=
  [0x39, 0xce, 0x20, 0xbe, 0xde, 0x82, 0xc9, 0x6b, 0x89, 0x08, 0xbe, 0xc4,
   0xa1, 0x57, 0xb0, 0x9c, 0x54, 0x9b, 0x3d, 0xb9, 0x0b, 0x9b, 0x47, 0x4b,
   0xda, 0x9a, 0xe9, 0xb9, 0x03, 0x03, 0x10, 0xb4]

/-- `hash32(mkLeaf 2 ‖ mkLeaf 3)`. -/
def c1Y : List Nat :=
  [0x1b, 0x12, 0xc1, 0x42, 0xca, 0x6f, 0xab, 0xe6, 0xcc, 0xcf, 0x4a, 0xa5,
   0x2a, 0xff, 0x1f, 0x21, 0x88, 0x2e, 0xc4, 0x9d, 0xa2, 0xdd, 0x4c, 0x1c,
   0xf7, 0x0a, 0xbf, 0xfc, 0xc4, 0x5f, 0x59, 0x1b]

/-- `hash32(mkLeaf 3 ‖ mkLeaf 4)`. -/
def c1Z : List Nat :=
  [0xc3, 0xa6, 0xb1, 0x0a, 0x4d, 0xdc, 0xdf, 0x95, 0x61, 0xd3, 0xc6, 0xf4,
   0x4a, 0x09, 0xc6, 0xec, 0xd3, 0x80, 0x48, 0x62, 0x75, 0x67, 0x4e, 0x74,
   0xf5, 0x50, 0x34, 0x29, 0x23, 0x0b, 0x7c, 0xf2]

set_option maxHeartbeats 4000000 in
/-- C1 refuted on the failing input.  For every 4-leaf tree
`[a, b, c, d]` the source pairs `elements[i]` with `elements[i+1]`
(for `i = 0, 1`), so the root is `hash32(hash32(a‖b) ‖ hash32(b‖c))` —
leaf `d` enters only through the (absent) odd case — and on four
distinct concrete leaves this differs from the claimed
`hash32(hash32(a‖b) ‖ hash32(c‖d))`. -/
theorem C1_merkle_four_leaf_divergence :
    (∀ a b c d : List Nat,
      MerkleTree.root [a, b, c, d] =
        some (MerkleTree.concat (MerkleTree.concat a b) (MerkleTree.concat b c))) ∧
    MerkleTree.root [mkLeaf 1, mkLeaf 2, mkLeaf 3, mkLeaf 4] ≠
      some (hash32 (hash32 (mkLeaf 1 ++ mkLeaf 2) ++ hash32 (mkLeaf 3 ++ mkLeaf 4))) := by
  have hroot : ∀ a b c d : List Nat,
      MerkleTree.root [a, b, c, d] =
        some (MerkleTree.concat (MerkleTree.concat a b) (MerkleTree.concat b c)) := by
    intro a b c d
    simp [MerkleTree.root, MerkleTree.root_rec, MerkleTree.layer_up, List.range_succ]
  have hX : hash32 (mkLeaf 1 ++ mkLeaf 2) = c1X := by decide
  have hY : hash32 (mkLeaf 2 ++ mkLeaf 3) = c1Y := by decide
  have hZ : hash32 (mkLeaf 3 ++ mkLeaf 4) = c1Z := by decide
  refine ⟨hroot, fun h => ?_⟩
  rw [hroot, MerkleTree.concat, MerkleTree.concat, MerkleTree.concat,
    hX, hY, hZ] at h
  have hne : hash32 (c1X ++ c1Y) ≠ hash32 (c1X ++ c1Z) := by decide
  exact hne (by injection h)

/-! ## transaction.rs -/

/-- A transaction input (`TxInput`). -/
structure TxInput where
  tx : List Nat
  index : Nat
  script_sig : List Nat
  sequence : Nat
  deriving DecidableEq

/-- `TxInput::bytes`: previous-tx hash bytes as stored, LE index, VarInt
scriptSig length, scriptSig, LE sequence. -/
def TxInput.bytes (i : TxInput) : List Nat :=
  i.tx ++ leBytes 4 i.index ++
    VariableInteger.bytes i.script_sig.length ++ i.script_sig ++
    leBytes 4 i.sequence

/-- A transaction output (`TxOutput`). -/
structure TxOutput where
  value : Nat
  script_pub_key : List Nat
  deriving DecidableEq

/-- `TxOutput::bytes`. -/
def TxOutput.bytes (o : TxOutput) : List Nat :=
  leBytes 8 o.value ++
    VariableInteger.bytes o.script_pub_key.length ++ o.script_pub_key

/-- A transaction (`Transaction`). -/
structure Transaction where
  version : Nat
  inputs : List TxInput
  outputs : List TxOutput
  lock_time : Nat
  deriving DecidableEq

/-- `Transaction::new`. -/
def Transaction.new : Transaction :=
  ⟨1, [], [], 0⟩

/-- `Transaction::add_input`. -/
def Transaction.add_input (t : Transaction) (tx : List Nat) (index : Nat)
    (script_sig : List Nat) : Transaction :=
  { t with inputs := t.inputs ++ [⟨tx, index, script_sig, 0xffffffff⟩] }

/-- `Transaction::add_output`. -/
def Transaction.add_output (t : Transaction) (value : Nat)
    (script_pub_key : List Nat) : Transaction :=
  { t with outputs := t.outputs ++ [⟨value, script_pub_key⟩] }

/-- `Transaction::bytes`. -/
def Transaction.bytes (t : Transaction) : List Nat :=
  leBytes 4 t.version ++
    VariableInteger.bytes t.inputs.length ++ (t.inputs.flatMap TxInput.bytes) ++
    VariableInteger.bytes t.outputs.length ++ (t.outputs.flatMap TxOutput.bytes) ++
    leBytes 4 t.lock_time

/-- `impl Hashable for Transaction`: reversed double-SHA-256 of the
serialization. -/
def Transaction.hash (t : Transaction) : List Nat :=
  (hash32 t.bytes).reverse

/-! ## block.rs -/

/-- A block header (`BlockHeader`). -/
structure BlockHeader where
  version : Nat
  hash_prev_block : List Nat
  hash_merkle_root : List Nat
  time : Nat
  bits : Nat
  nonce : Nat
  deriving DecidableEq

/-- `BlockHeader::bytes`: both hash fields go through
`hash32_to_bytes` (byte reversal). -/
def BlockHeader.bytes (h : BlockHeader) : List Nat :=
  leBytes 4 h.version ++
    hash32_to_bytes h.hash_prev_block ++ hash32_to_bytes h.hash_merkle_root ++
    leBytes 4 h.time ++ leBytes 4 h.bits ++ leBytes 4 h.nonce

/-- `BlockHeader::length()`. -/
def BlockHeader.lengthBytes : Nat := 80

/-- `impl Hashable for BlockHeader`. -/
def BlockHeader.hash (h : BlockHeader) : List Nat :=
  (hash32 h.bytes).reverse

/-- A block (`Block`). -/
structure Block where
  header : BlockHeader
  transactions : List Transaction
  deriving DecidableEq

/-- `Block::bytes`. -/
def Block.bytes (b : Block) : List Nat :=
  b.header.bytes ++
    VariableInteger.bytes b.transactions.length ++
    b.transactions.flatMap Transaction.bytes

/-- `impl Hashable for Block`: reversed double-SHA-256 of the header
serialization. -/
def Block.hash (b : Block) : List Nat :=
  (hash32 b.header.bytes).reverse

/-- `Block::new`: builds the header with a zero Merkle root, then
`update_merkle_root` replaces it with the unwrapped root of the
single-transaction Merkle tree (`none` would be the unwrap panic,
unreachable on the one-element list). -/
def Block.new (version : Nat) (hash_prev_block : List Nat)
    (time nonce bits : Nat) (first_tx : Transaction) : Option Block :=
  match MerkleTree.root [Transaction.hash first_tx] with
  | some root =>
      some ⟨⟨version, hash_prev_block, root, time, bits, nonce⟩, [first_tx]⟩
  | none => none

/-- The genesis coinbase scriptSig
(`04ffff001d0104455468652054696d6573…` — "The Times 03/Jan/2009 …"). -/
def genesisScriptSig : List Nat :=
  [0x04, 0xff, 0xff, 0x00, 0x1d, 0x01, 0x04, 0x45, 0x54, 0x68, 0x65, 0x20,
   0x54, 0x69, 0x6d, 0x65, 0x73, 0x20, 0x30, 0x33, 0x2f, 0x4a, 0x61, 0x6e,
   0x2f, 0x32, 0x30, 0x30, 0x39, 0x20, 0x43, 0x68, 0x61, 0x6e, 0x63, 0x65,
   0x6c, 0x6c, 0x6f, 0x72, 0x20, 0x6f, 0x6e, 0x20, 0x62, 0x72, 0x69, 0x6e,
   0x6b, 0x20, 0x6f, 0x66, 0x20, 0x73, 0x65, 0x63, 0x6f, 0x6e, 0x64, 0x20,
   0x62, 0x61, 0x69, 0x6c, 0x6f, 0x75, 0x74, 0x20, 0x66, 0x6f, 0x72, 0x20,
   0x62, 0x61, 0x6e, 0x6b, 0x73]

/-- The genesis coinbase scriptPubKey: a 65-byte push of the Satoshi
public key followed by `OP_CHECKSIG` (`0xAC`). -/
def genesisPkScript : List Nat :=
  [0x41, 0x04, 0x67, 0x8a, 0xfd, 0xb0, 0xfe, 0x55, 0x48, 0x27, 0x19, 0x67,
   0xf1, 0xa6, 0x71, 0x30, 0xb7, 0x10, 0x5c, 0xd6, 0xa8, 0x28, 0xe0, 0x39,
   0x09, 0xa6, 0x79, 0x62, 0xe0, 0xea, 0x1f, 0x61, 0xde, 0xb6, 0x49, 0xf6,
   0xbc, 0x3f, 0x4c, 0xef, 0x38, 0xc4, 0xf3, 0x55, 0x04, 0xe5, 0x1e, 0xc1,
   0x12, 0xde, 0x5c, 0x38, 0x4d, 0xf7, 0xba, 0x0b, 0x8d, 0x57, 0x8a, 0x4c,
   0x70, 0x2b, 0x6b, 0xf1, 0x1d, 0x5f, 0xac]

/-- `block::genesis_block`: coinbase with an all-zero previous-tx hash
and `0xFFFFFFFF` previous index, the reward output, and an all-zero
previous-block hash. -/
def genesis_block (version time nonce bits reward : Nat) : Option Block :=
  let tx := (Transaction.new.add_input (List.replicate 32 0) 0xffffffff
    genesisScriptSig).add_output reward genesisPkScript
  Block.new version (List.replicate 32 0) time nonce bits tx

/-- The genesis coinbase of `config::main_config()` (reward `5×10⁹`). -/
def mainGenesisTx : Transaction :=
  (Transaction.new.add_input (List.replicate 32 0) 0xffffffff
    genesisScriptSig).add_output 5000000000 genesisPkScript

/-- `Transaction.hash mainGenesisTx` (display order). -/
def c9MerkleRoot : List Nat :=
  [0x4a, 0x5e, 0x1e, 0x4b, 0xaa, 0xb8, 0x9f, 0x3a, 0x32, 0x51, 0x8a, 0x88,
   0xc3, 0x1b, 0xc8, 0x7f, 0x61, 0x8f, 0x76, 0x67, 0x3e, 0x2c, 0xc7, 0x7a,
   0xb2, 0x12, 0x7b, 0x7a, 0xfd, 0xed, 0xa3, 0x3b]

set_option maxHeartbeats 8000000 in
/-- C9.  The main-network genesis block built by `genesis_block` with
version 1, time 1231006505, nonce 2083236893, bits 486604799 and reward
5·10⁹ satoshi hashes (reversed double-SHA-256 of the 80-byte header) to
`000000000019d6689c085ae165831e934ff763ae46a2a6c172b3f1b60a8ce26f` and
carries the Merkle root
`4a5e1e4baab89f3a32518a88c31bc87f618f76673e2cc77ab2127b7afdeda33b`. -/
theorem C9_genesis_main_block :
    ∃ g, genesis_block 1 1231006505 2083236893 486604799 5000000000 = some g ∧
      hexEncode (Block.hash g) =
        "000000000019d6689c085ae165831e934ff763ae46a2a6c172b3f1b60a8ce26f" ∧
      hexEncode g.header.hash_merkle_root =
        "4a5e1e4baab89f3a32518a88c31bc87f618f76673e2cc77ab2127b7afdeda33b" := by
  have htx : Transaction.hash mainGenesisTx = c9MerkleRoot := by decide
  have hg : genesis_block 1 1231006505 2083236893 486604799 5000000000 =
      some ⟨⟨1, List.replicate 32 0, Transaction.hash mainGenesisTx,
        1231006505, 486604799, 2083236893⟩, [mainGenesisTx]⟩ := rfl
  rw [htx] at hg
  refine ⟨_, hg, ?_, ?_⟩
  · show hexEncode
      (Block.hash ⟨⟨1, List.replicate 32 0, c9MerkleRoot,
        1231006505, 486604799, 2083236893⟩, [mainGenesisTx]⟩) = _
    decide
  · decide

/-! ## script.rs

The script engine.  The stack is a `List StackEntry` with the HEAD as the
Vec's top (`push` conses, `pop` takes the head, `stack[len-1]` is the
head).  The `op_map` dispatch table of the source is inlined into
`exec_next_instruction` with the same opcode-to-function pairs that
`build_op_map` inserts.  The two external openssl primitives are
parameters: `Crypto.ripemd160` (inside `crypto::hash20`) and
`Crypto.check_signature` (ECDSA; `none` is its `Err` result). -/

/-- The opaque external crypto primitives used by the script engine. -/
structure Crypto where
  ripemd160 : List Nat → List Nat
  check_signature : List Nat → List Nat → List Nat → Option Bool

/-- `crypto::hash20`: RIPEMD-160 of SHA-256. -/
def hash20 (C : Crypto) (data : List Nat) : List Nat :=
  C.ripemd160 (sha256 data)

/-- A script stack entry (`StackEntry`). -/
inductive StackEntry where
  | array (val : List Nat)
  | bool (val : Bool)
  | number (val : Int)
  deriving DecidableEq

/-- The script interpreter state (`struct Script`, minus the `op_map`
closure table, which is inlined into the dispatcher). -/
structure Script where
  code : List Nat
  txin_scriptsig : List Nat
  txout_pkscript : List Nat
  stack : List StackEntry
  pc : Nat
  transaction : Transaction
  transaction_invalid : Bool
  input_index : Nat
  block_timestamp : Nat
  deriving DecidableEq

/-- `struct ScriptResult`. -/
structure ScriptResult where
  stack : List StackEntry
  invalid : Bool
  deriving DecidableEq

/-- `Script::new`: concatenates the input's scriptSig with the previous
output's scriptPubKey (`none` if `input_index` is out of bounds). -/
def Script.new (tx_new : Transaction) (input_index : Nat)
    (tx_prev_out : TxOutput) (block_timestamp : Nat) : Option Script :=
  if input_index < tx_new.inputs.length then
    let script_sig := (tx_new.inputs.getD input_index ⟨[], 0, [], 0⟩).script_sig
    let pk_script := tx_prev_out.script_pub_key
    some ⟨script_sig ++ pk_script, script_sig, pk_script, [], 0,
      tx_new, false, input_index, block_timestamp⟩
  else none

/-- `Script::op_push`: `size = code[pc]`, then push `code[pc+1 .. pc+1+size]`
(`none` when the slice leaves the code, the Rust slice panic). -/
def Script.op_push (s : Script) : Option Script :=
  if s.pc < s.code.length then
    let size := s.code.getD s.pc 0
    if s.pc + 1 + size ≤ s.code.length then
      some { s with
        stack := .array ((s.code.drop (s.pc + 1)).take size) :: s.stack,
        pc := s.pc + 1 + size }
    else none
  else none

/-- `Script::op_dup` (`stack[len-1]` on an empty stack panics). -/
def Script.op_dup (s : Script) : Option Script :=
  match s.stack with
  | [] => none
  | top :: rest => some { s with stack := top :: top :: rest, pc := s.pc + 1 }

/-- `Script::op_hash160`: pop an array, push its `hash20` (any other
entry is the source's `panic!("Invalid stack")`). -/
def Script.op_hash160 (C : Crypto) (s : Script) : Option Script :=
  match s.stack with
  | .array data :: rest =>
      some { s with pc := s.pc + 1, stack := .array (hash20 C data) :: rest }
  | _ => none

/-- `Script::op_equal`: two arrays or two booleans compare by value,
every other combination pushes `false`. -/
def Script.op_equal (s : Script) : Option Script :=
  match s.stack with
  | x1 :: x2 :: rest =>
      let to_add := match x1, x2 with
        | .array val1, .array val2 => StackEntry.bool (val1 = val2)
        | .bool val1, .bool val2 => StackEntry.bool (val1 = val2)
        | _, _ => StackEntry.bool false
      some { s with pc := s.pc + 1, stack := to_add :: rest }
  | _ => none

/-- `Script::op_verify`: pop; the invalid flag is ASSIGNED (not or-ed):
`true` exactly for an empty array or `false`. -/
def Script.op_verify (s : Script) : Option Script :=
  match s.stack with
  | val :: rest =>
      let inv := match val with
        | .array [] => true
        | .bool false => true
        | _ => false
      some { s with pc := s.pc + 1, stack := rest, transaction_invalid := inv }
  | [] => none

/-- `Script::op_equalverify` (`pc -= 1` underflows at `pc = 0`, the
debug-mode panic, then both sub-ops re-increment). -/
def Script.op_equalverify (s : Script) : Option Script :=
  if s.pc = 0 then none
  else do
    let s1 ← Script.op_equal { s with pc := s.pc - 1 }
    Script.op_verify s1

/-- In-place update of one list element (`&mut v[i]`). -/
def listModify (f : α → α) : Nat → List α → List α
  | _, [] => []
  | 0, x :: xs => f x :: xs
  | n + 1, x :: xs => x :: listModify f n xs

/-- `Script::checksig` steps 2–10: sub-script is the whole scriptPubKey
(no OP_CODESEPARATOR support), the hashtype byte is popped off the
signature (`none` if empty), every input's scriptSig is cleared, the
current input's becomes the sub-script (`none` if `input_index` is out
of bounds), and the signature is checked against
`hash32(tx_copy.bytes() ‖ LE32(hashtype))`; an `Err` from the ECDSA
primitive yields `false`. -/
def Script.checksig (C : Crypto) (s : Script)
    (pub_key_str sig_str : List Nat) : Option Bool :=
  let sub_script := s.txout_pkscript
  match sig_str.getLast? with
  | none => none
  | some hashtype =>
      let sig_rest := sig_str.dropLast
      if s.input_index < s.transaction.inputs.length then
        let cleared := s.transaction.inputs.map fun i => { i with script_sig := [] }
        let tx_copy : Transaction := { s.transaction with
          inputs := listModify (fun i => { i with script_sig := sub_script })
            s.input_index cleared }
        let bytes := tx_copy.bytes ++ leBytes 4 hashtype
        some (match C.check_signature pub_key_str sig_rest (hash32 bytes) with
          | some true => true
          | _ => false)
      else none

/-- `Script::op_checksig`: pop pubkey then signature; a failed `if let`
silently consumes the entry without pushing, an empty stack panics. -/
def Script.op_checksig (C : Crypto) (s : Script) : Option Script :=
  match s.stack with
  | .array pub_key_str :: .array sig_str :: rest => do
      let b ← Script.checksig C s pub_key_str sig_str
      some { s with stack := .bool b :: rest, pc := s.pc + 1 }
  | .array _ :: _ :: rest => some { s with stack := rest, pc := s.pc + 1 }
  | .array _ :: [] => none
  | _ :: rest => some { s with stack := rest, pc := s.pc + 1 }
  | [] => none

/-- `Script::op_checksigverify`. -/
def Script.op_checksigverify (C : Crypto) (s : Script) : Option Script :=
  if s.pc = 0 then none
  else do
    let s1 ← Script.op_checksig C { s with pc := s.pc - 1 }
    Script.op_verify s1

/-- Pop `n` entries that must all be arrays (in pop order); any other
entry or an exhausted stack is the source's panic. -/
def popArrays : Nat → List StackEntry → Option (List (List Nat) × List StackEntry)
  | 0, st => some ([], st)
  | k + 1, .array v :: st =>
      (popArrays k st).map fun p => (v :: p.1, p.2)
  | _ + 1, _ => none

/-- The inner `while pubkeys_index < pubkeys_len` search of
`op_checkmultisig`: try `checksig(sigs[i], pubkeys[pubkeys_index])` —
note the source passes the SIGNATURE as `checksig`'s `pub_key_str` and
the PUBKEY as its `sig_str` — advancing the index on both success
(break) and failure. -/
def Script.cmsFind (C : Crypto) (s : Script) (sigi : List Nat)
    (pubkeys : List (List Nat)) (len : Nat) : Nat → Nat → Option Nat
  | 0, idx => some idx
  | fuel + 1, idx =>
      if idx < len then do
        let b ← Script.checksig C s sigi (pubkeys.getD idx [])
        if b then some (idx + 1) else Script.cmsFind C s sigi pubkeys len fuel (idx + 1)
      else some idx

/-- The outer `for i in 0..sigs_len` loop of `op_checkmultisig`:
push `false` early only when the pubkeys ran out AND `i < sigs_len - 1`;
otherwise fall through and push `true`. -/
def Script.cmsLoop (C : Crypto) (s : Script) (pubkeys : List (List Nat))
    (pubkeys_len : Nat) (sigs_len : Int) :
    List (List Nat) → Nat → Nat → Option Bool
  | [], _, _ => some true
  | sigi :: rest, i, idx => do
      let idx' ← Script.cmsFind C s sigi pubkeys pubkeys_len pubkeys_len idx
      if idx' = pubkeys_len ∧ (i : Int) < sigs_len - 1 then some false
      else Script.cmsLoop C s pubkeys pubkeys_len sigs_len rest (i + 1) idx'

/-- `Script::op_checkmultisig`: pop N (must be a positive number), N
pubkeys, M, M signatures, then the extra legacy entry which must be
`Bool(false)` or an empty array (`panic!` otherwise — `none` here), and
run the monotone matching loop. -/
def Script.op_checkmultisig (C : Crypto) (s : Script) : Option Script :=
  let s := { s with pc := s.pc + 1 }
  match s.stack with
  | .number pubkeys_len :: st1 =>
      if pubkeys_len ≤ 0 then none
      else
        match popArrays pubkeys_len.toNat st1 with
        | none => none
        | some (pks, st2) =>
            let pubkeys := pks.reverse
            match st2 with
            | .number sigs_len :: st3 =>
                match popArrays sigs_len.toNat st3 with
                | none => none
                | some (sgs, st4) =>
                    let sigs := sgs.reverse
                    match st4 with
                    | extra :: st5 =>
                        let should_panic : Bool := match extra with
                          | .bool false => false
                          | .array vector => !vector.isEmpty
                          | _ => true
                        if should_panic then none
                        else do
                          let b ← Script.cmsLoop C s pubkeys pubkeys_len.toNat
                            sigs_len sigs 0 0
                          some { s with stack := .bool b :: st5 }
                    | [] => none
            | _ => none
  | _ => none

/-- `Script::op_checkmultisigverify`. -/
def Script.op_checkmultisigverify (C : Crypto) (s : Script) : Option Script :=
  if s.pc = 0 then none
  else do
    let s1 ← Script.op_checkmultisig C { s with pc := s.pc - 1 }
    Script.op_verify s1

/-- `Script::op_true` (0x51): push the NUMBER 1. -/
def Script.op_true (s : Script) : Option Script :=
  some { s with stack := .number 1 :: s.stack, pc := s.pc + 1 }

/-- `Script::op_false` (0x00): push an empty array. -/
def Script.op_false (s : Script) : Option Script :=
  some { s with stack := .array [] :: s.stack, pc := s.pc + 1 }

/-- `Script::exec_next_instruction`, with `build_op_map`'s table
inlined; an unknown opcode is the source's `panic!("Invalid opcode")`. -/
def Script.exec_next_instruction (C : Crypto) (s : Script) : Option Script :=
  if s.pc < s.code.length then
    let opcode := s.code.getD s.pc 0
    if opcode = 0x76 then Script.op_dup s
    else if opcode = 0xa9 then Script.op_hash160 C s
    else if opcode = 0x87 then Script.op_equal s
    else if opcode = 0x69 then Script.op_verify s
    else if opcode = 0x88 then Script.op_equalverify s
    else if opcode = 0xac then Script.op_checksig C s
    else if opcode = 0xad then Script.op_checksigverify C s
    else if opcode = 0x51 then Script.op_true s
    else if opcode = 0xae then Script.op_checkmultisig C s
    else if opcode = 0xaf then Script.op_checkmultisigverify C s
    else if opcode = 0x00 then Script.op_false s
    else if 0x01 ≤ opcode ∧ opcode ≤ 0x4b then Script.op_push s
    else none
  else none

/-- `Script::exec_is_finished`. -/
def Script.exec_is_finished (s : Script) : Bool :=
  s.code.length == s.pc

/-- The `loop { exec_next_instruction; if finished || invalid break }`
body of `Script::exec`, with the iteration count as fuel (`none` both
for a panic inside an op and for exhausted fuel — the loop never
terminates on an ill-formed script whose `pc` jumps past the end, so
partiality is faithful). -/
def Script.exec_loop (C : Crypto) : Nat → Script → Option Script
  | 0, _ => none
  | fuel + 1, s => do
      let s' ← Script.exec_next_instruction C s
      if Script.exec_is_finished s' || s'.transaction_invalid then some s'
      else Script.exec_loop C fuel s'

/-- `Script::is_pay_to_script_hash`: block timestamp at least
1333238400 and a 23-byte scriptPubKey `0xA9 0x14 ‹20 bytes› 0x87`. -/
def Script.is_pay_to_script_hash (s : Script) : Bool :=
  if s.block_timestamp < 1333238400 then false
  else if s.txout_pkscript.length ≠ 23 then false
  else if s.txout_pkscript.getD 0 0 ≠ 0xa9 then false
  else if s.txout_pkscript.getD 1 0 ≠ 20 then false
  else if s.txout_pkscript.getD 22 0 ≠ 0x87 then false
  else true

/-- The scan of `Script::pop_serialized_script`: walk the scriptSig,
remembering the size of the most recent push opcode (non-push bytes
REUSE the previous size, as in the source), until the index leaves the
buffer. -/
def Script.pop_scan : Nat → List Nat → Nat → Nat → Nat × Nat
  | 0, _, index, size => (index, size)
  | fuel + 1, sig, index, size =>
      if index < sig.length then
        let opcode := sig.getD index 0
        let size' := if 1 ≤ opcode ∧ opcode ≤ 0x4b then opcode else size
        Script.pop_scan fuel sig (index + 1 + size') size'
      else (index, size)

/-- `Script::pop_serialized_script`: returns the bytes of the last push
and the state with that trailing push (data AND its length byte)
removed from `txin_scriptsig`; `none` for the empty-scriptSig panic or
the `Err(())` when the scan overshoots. -/
def Script.pop_serialized_script (s : Script) : Option (List Nat × Script) :=
  let sig := s.txin_scriptsig
  if sig.isEmpty then none
  else
    let scan := Script.pop_scan (sig.length + 1) sig 0 0
    if scan.1 = sig.length then
      let start := scan.1 - scan.2
      let script := sig.drop start
      let e := if start > 0 then start - 1 else start
      some (script, { s with txin_scriptsig := sig.take e })
    else none

/-- `Script::exec`: clear the stack, reset `pc`, run; if the run ended
invalid or the scriptPubKey is not P2SH, report; otherwise pop the
serialized script, re-run `txin_scriptsig ‖ script` on a fresh stack
and report that second pass. -/
def Script.exec (C : Crypto) (fuel : Nat) (s0 : Script) : Option ScriptResult := do
  let r ← Script.exec_loop C fuel { s0 with stack := [], pc := 0 }
  if r.transaction_invalid || !(Script.is_pay_to_script_hash r) then
    some ⟨r.stack, r.transaction_invalid⟩
  else do
    let ps ← Script.pop_serialized_script r
    let s2 := { ps.2 with code := ps.2.txin_scriptsig ++ ps.1, pc := 0, stack := [] }
    let r2 ← Script.exec_loop C fuel s2
    some ⟨r2.stack, r2.transaction_invalid⟩

/-- A crypto oracle that rejects every signature. -/
def c2Crypto : Crypto := ⟨fun _ => [], fun _ _ _ => some false⟩

/-- A one-input transaction for the C2 failing input. -/
def c2Tx : Transaction := Transaction.new.add_input (List.replicate 32 0) 0 []

/-- The C2 failing input: a 1-of-1 CHECKMULTISIG stack (from the top:
N = 1, one pubkey, M = 1, one signature, and the legacy empty extra
entry) in a state about to execute opcode 0xAE. -/
def c2State : Script :=
  ⟨[0xae], [], [],
   [.number 1, .array [0x02], .number 1, .array [0x30, 0x01], .array []],
   0, c2Tx, false, 0, 0⟩

/-- C2 refuted on the failing input.  Under an ECDSA oracle that rejects
everything, the single signature validates against no pubkey, so the
claim requires `op_checkmultisig` to push `false`; the source's early
exit is guarded by `i < sigs_len - 1`, which is never true for the LAST
signature, so the loop falls through and the code pushes `true`.
(Independently, the call passes `sigs[i]` as `checksig`'s pubkey
argument and the pubkey as its signature argument.) -/
theorem C2_checkmultisig_accepts_failing_last_sig :
    Script.op_checkmultisig c2Crypto c2State =
      some { c2State with pc := 1, stack := [.bool true] } := by
  decide

set_option maxHeartbeats 1000000 in
/-- C4.  Every signature check `Script::checksig` performs (here as
popped by `OP_CHECKSIG`: pubkey, then signature) passes to the ECDSA
primitive exactly the hash
`hash32(bytes(tx′) ‖ LE32(hashtype))`, where `hashtype` is the byte
removed from the end of the signature and `tx′` is the spending
transaction with every input's scriptSig cleared and the current
input's scriptSig replaced by the sub-script (the whole scriptPubKey,
there being no OP_CODESEPARATOR support). -/
theorem C4_checksig_preimage (C : Crypto) (s : Script) (pk sig : List Nat)
    (rest : List StackEntry)
    (hstack : s.stack = .array pk :: .array sig :: rest)
    (hsig : sig ≠ [])
    (hidx : s.input_index < s.transaction.inputs.length) :
    Script.op_checksig C s =
      some { s with
        pc := s.pc + 1,
        stack := StackEntry.bool
          (match C.check_signature pk sig.dropLast
              (hash32 (Transaction.bytes
                { s.transaction with inputs :=
                    (listModify (fun i => { i with script_sig := s.txout_pkscript })
                      s.input_index
                      (s.transaction.inputs.map fun i => { i with script_sig := [] })) } ++
                leBytes 4 (sig.getLast hsig))) with
            | some true => true
            | _ => false) :: rest } := by
  have hgl : sig.getLast? = some (sig.getLast hsig) :=
    List.getLast?_eq_getLast sig hsig
  unfold Script.op_checksig Script.checksig
  rw [hstack]
  dsimp only
  rw [hgl]
  dsimp only
  rw [if_pos hidx]
  rfl

/-! ### Static fields of the interpreter state

All opcode handlers mutate only `stack`, `pc` and `transaction_invalid`;
`code`, `txin_scriptsig`, `txout_pkscript`, `transaction`, `input_index`
and `block_timestamp` are only changed by `exec` itself in the BIP-16
branch.  `Script.staticEq s s'` records that agreement. -/

/-- `s'` agrees with `s` on every field the opcode handlers never touch. -/
def Script.staticEq (s s' : Script) : Prop :=
  s'.code = s.code ∧ s'.txin_scriptsig = s.txin_scriptsig ∧
  s'.txout_pkscript = s.txout_pkscript ∧ s'.transaction = s.transaction ∧
  s'.input_index = s.input_index ∧ s'.block_timestamp = s.block_timestamp

theorem Script.staticEq_trans {s t u : Script}
    (a : Script.staticEq s t) (b : Script.staticEq t u) : Script.staticEq s u :=
  ⟨b.1.trans a.1, b.2.1.trans a.2.1, b.2.2.1.trans a.2.2.1,
   b.2.2.2.1.trans a.2.2.2.1, b.2.2.2.2.1.trans a.2.2.2.2.1,
   b.2.2.2.2.2.trans a.2.2.2.2.2⟩

theorem optBind_eq_some {α β : Type} {x : Option α} {f : α → Option β} {b : β}
    (h : (do let a ← x; f a) = some b) : ∃ a, x = some a ∧ f a = some b := by
  cases x with
  | none => exact absurd h (by simp)
  | some a => exact ⟨a, rfl, h⟩

theorem optBind_eq_some' {α β : Type} {x : Option α} {f : α → Option β} {b : β}
    (h : Option.bind x f = some b) : ∃ a, x = some a ∧ f a = some b := by
  cases x with
  | none => exact absurd h (by simp)
  | some a => exact ⟨a, rfl, h⟩

theorem op_dup_static (s s' : Script) (h : Script.op_dup s = some s') :
    Script.staticEq s s' := by
  unfold Script.op_dup at h
  split at h
  · simp at h
  · injection h with h; subst h; exact ⟨rfl, rfl, rfl, rfl, rfl, rfl⟩

theorem op_push_static (s s' : Script) (h : Script.op_push s = some s') :
    Script.staticEq s s' := by
  unfold Script.op_push at h
  dsimp only at h
  split_ifs at h
  · injection h with h; subst h; exact ⟨rfl, rfl, rfl, rfl, rfl, rfl⟩

theorem op_hash160_static (C : Crypto) (s s' : Script)
    (h : Script.op_hash160 C s = some s') : Script.staticEq s s' := by
  unfold Script.op_hash160 at h
  split at h
  · injection h with h; subst h; exact ⟨rfl, rfl, rfl, rfl, rfl, rfl⟩
  · simp at h

theorem op_equal_static (s s' : Script) (h : Script.op_equal s = some s') :
    Script.staticEq s s' := by
  unfold Script.op_equal at h
  split at h
  · injection h with h; subst h; exact ⟨rfl, rfl, rfl, rfl, rfl, rfl⟩
  · simp at h

theorem op_verify_static (s s' : Script) (h : Script.op_verify s = some s') :
    Script.staticEq s s' := by
  unfold Script.op_verify at h
  split at h
  · injection h with h; subst h; exact ⟨rfl, rfl, rfl, rfl, rfl, rfl⟩
  · simp at h

theorem op_equalverify_static (s s' : Script)
    (h : Script.op_equalverify s = some s') : Script.staticEq s s' := by
  unfold Script.op_equalverify at h
  split_ifs at h
  obtain ⟨s1, h1, h2⟩ := optBind_eq_some h
  have e1 := op_equal_static _ _ h1
  have e2 := op_verify_static _ _ h2
  exact Script.staticEq_trans (Script.staticEq_trans
    ⟨rfl, rfl, rfl, rfl, rfl, rfl⟩ e1) e2

theorem op_checksig_static (C : Crypto) (s s' : Script)
    (h : Script.op_checksig C s = some s') : Script.staticEq s s' := by
  unfold Script.op_checksig at h
  split at h
  · obtain ⟨b, hb, h⟩ := optBind_eq_some h
    injection h with h; subst h; exact ⟨rfl, rfl, rfl, rfl, rfl, rfl⟩
  · injection h with h; subst h; exact ⟨rfl, rfl, rfl, rfl, rfl, rfl⟩
  · simp at h
  · injection h with h; subst h; exact ⟨rfl, rfl, rfl, rfl, rfl, rfl⟩
  · simp at h

theorem op_checksigverify_static (C : Crypto) (s s' : Script)
    (h : Script.op_checksigverify C s = some s') : Script.staticEq s s' := by
  unfold Script.op_checksigverify at h
  split_ifs at h
  obtain ⟨s1, h1, h2⟩ := optBind_eq_some h
  have e1 := op_checksig_static _ _ _ h1
  have e2 := op_verify_static _ _ h2
  exact Script.staticEq_trans (Script.staticEq_trans
    ⟨rfl, rfl, rfl, rfl, rfl, rfl⟩ e1) e2

theorem op_true_static (s s' : Script) (h : Script.op_true s = some s') :
    Script.staticEq s s' := by
  injection h with h; subst h; exact ⟨rfl, rfl, rfl, rfl, rfl, rfl⟩

theorem op_false_static (s s' : Script) (h : Script.op_false s = some s') :
    Script.staticEq s s' := by
  injection h with h; subst h; exact ⟨rfl, rfl, rfl, rfl, rfl, rfl⟩

theorem op_checkmultisig_static (C : Crypto) (s s' : Script)
    (h : Script.op_checkmultisig C s = some s') : Script.staticEq s s' := by
  unfold Script.op_checkmultisig at h
  dsimp only at h
  repeat' split at h
  all_goals
    first
      | (injection h with h; subst h; exact ⟨rfl, rfl, rfl, rfl, rfl, rfl⟩)
      | (obtain ⟨b, hb, h⟩ := optBind_eq_some' h
         injection h with h; subst h; exact ⟨rfl, rfl, rfl, rfl, rfl, rfl⟩)
      | (obtain ⟨b, hb, h⟩ := optBind_eq_some h
         injection h with h; subst h; exact ⟨rfl, rfl, rfl, rfl, rfl, rfl⟩)
      | simp at h

theorem op_checkmultisigverify_static (C : Crypto) (s s' : Script)
    (h : Script.op_checkmultisigverify C s = some s') : Script.staticEq s s' := by
  unfold Script.op_checkmultisigverify at h
  split_ifs at h
  obtain ⟨s1, h1, h2⟩ := optBind_eq_some h
  have e1 := op_checkmultisig_static _ _ _ h1
  have e2 := op_verify_static _ _ h2
  exact Script.staticEq_trans (Script.staticEq_trans
    ⟨rfl, rfl, rfl, rfl, rfl, rfl⟩ e1) e2

set_option maxHeartbeats 2000000 in
theorem exec_next_static (C : Crypto) (s s' : Script)
    (h : Script.exec_next_instruction C s = some s') : Script.staticEq s s' := by
  unfold Script.exec_next_instruction at h
  dsimp only at h
  by_cases hpc : s.pc < s.code.length
  case neg => rw [if_neg hpc] at h; exact absurd h (by simp)
  rw [if_pos hpc] at h
  obtain ⟨op, hop⟩ : ∃ op, s.code.getD s.pc 0 = op := ⟨_, rfl⟩
  rw [hop] at h
  by_cases h1 : op = 118
  · rw [if_pos h1] at h; exact op_dup_static _ _ h
  rw [if_neg h1] at h
  by_cases h2 : op = 169
  · rw [if_pos h2] at h; exact op_hash160_static _ _ _ h
  rw [if_neg h2] at h
  by_cases h3 : op = 135
  · rw [if_pos h3] at h; exact op_equal_static _ _ h
  rw [if_neg h3] at h
  by_cases h4 : op = 105
  · rw [if_pos h4] at h; exact op_verify_static _ _ h
  rw [if_neg h4] at h
  by_cases h5 : op = 136
  · rw [if_pos h5] at h; exact op_equalverify_static _ _ h
  rw [if_neg h5] at h
  by_cases h6 : op = 172
  · rw [if_pos h6] at h; exact op_checksig_static _ _ _ h
  rw [if_neg h6] at h
  by_cases h7 : op = 173
  · rw [if_pos h7] at h; exact op_checksigverify_static _ _ _ h
  rw [if_neg h7] at h
  by_cases h8 : op = 81
  · rw [if_pos h8] at h; exact op_true_static _ _ h
  rw [if_neg h8] at h
  by_cases h9 : op = 174
  · rw [if_pos h9] at h; exact op_checkmultisig_static _ _ _ h
  rw [if_neg h9] at h
  by_cases h10 : op = 175
  · rw [if_pos h10] at h; exact op_checkmultisigverify_static _ _ _ h
  rw [if_neg h10] at h
  by_cases h11 : op = 0
  · rw [if_pos h11] at h; exact op_false_static _ _ h
  rw [if_neg h11] at h
  by_cases h12 : 1 ≤ op ∧ op ≤ 75
  · rw [if_pos h12] at h; exact op_push_static _ _ h
  rw [if_neg h12] at h
  exact Option.noConfusion h

theorem exec_loop_static (C : Crypto) (fuel : Nat) (s r : Script)
    (h : Script.exec_loop C fuel s = some r) : Script.staticEq s r := by
  induction fuel generalizing s with
  | zero => simp [Script.exec_loop] at h
  | succ fuel ih =>
      unfold Script.exec_loop at h
      obtain ⟨t, ht, h2⟩ := optBind_eq_some h
      have e1 := exec_next_static C s t ht
      split_ifs at h2
      · injection h2 with h2; subst h2; exact e1
      · exact Script.staticEq_trans e1 (ih t h2)

/-! ### Push-only scriptSigs and `pop_serialized_script` -/

/-- A scriptSig that is a sequence of small data pushes: each chunk `c`
is encoded as its length byte followed by its bytes. -/
def pushEncode (chunks : List (List Nat)) : List Nat :=
  chunks.flatMap fun c => c.length :: c

/-- The length of the last chunk, or a default when there is none. -/
def lastLen (chunks : List (List Nat)) (dflt : Nat) : Nat :=
  match chunks.getLast? with
  | some c => c.length
  | none => dflt

theorem lastLen_cons (c : List Nat) (rest : List (List Nat)) (d : Nat) :
    lastLen (c :: rest) d = lastLen rest c.length := by
  cases rest with
  | nil => rfl
  | cons r rs =>
      cases hgl : (r :: rs).getLast? with
      | none => simp at hgl
      | some v => simp [lastLen, List.getLast?_cons_cons, hgl]

theorem getD_eq_headD_drop (l : List Nat) (n : Nat) (d : Nat) :
    l.getD n d = (l.drop n).headD d := by
  induction l generalizing n with
  | nil => cases n <;> rfl
  | cons x xs ih => cases n with
    | zero => rfl
    | succ n => simpa using ih n

theorem getD_append_right (l₁ l₂ : List Nat) (n d : Nat) (h : l₁.length ≤ n) :
    (l₁ ++ l₂).getD n d = l₂.getD (n - l₁.length) d := by
  induction l₁ generalizing n with
  | nil => simp
  | cons x xs ih =>
      cases n with
      | zero => simp at h
      | succ n => simpa using ih n (by simpa using h)

theorem getD_drop (l : List Nat) (n m d : Nat) :
    (l.drop n).getD m d = l.getD (n + m) d := by
  induction l generalizing n with
  | nil => simp
  | cons x xs ih =>
      cases n with
      | zero => simp
      | succ n => simpa [Nat.succ_add] using ih n

theorem getLast_eq_getD (l : List Nat) (h : l ≠ []) :
    l.getLast h = l.getD (l.length - 1) 0 := by
  induction l with
  | nil => exact absurd rfl h
  | cons x xs ih =>
      cases xs with
      | nil => rfl
      | cons y ys =>
          rw [List.getLast_cons (by simp)]
          simpa using ih (by simp)

theorem pushEncode_append (a b : List (List Nat)) :
    pushEncode (a ++ b) = pushEncode a ++ pushEncode b := by
  simp [pushEncode]

theorem length_le_pushEncode_length (chunks : List (List Nat)) :
    chunks.length ≤ (pushEncode chunks).length := by
  induction chunks with
  | nil => simp [pushEncode]
  | cons c rest ih => simp [pushEncode] at ih ⊢; omega

theorem pop_scan_pushEncode (chunks : List (List Nat)) :
    ∀ (sig : List Nat) (idx0 size0 fuel : Nat),
      (∀ c ∈ chunks, 1 ≤ c.length ∧ c.length ≤ 0x4b) →
      sig.drop idx0 = pushEncode chunks →
      idx0 ≤ sig.length →
      chunks.length ≤ fuel →
      Script.pop_scan fuel sig idx0 size0 = (sig.length, lastLen chunks size0) := by
  induction chunks with
  | nil =>
      intro sig idx0 size0 fuel _ hdrop hle _
      have hlen : sig.length - idx0 = 0 := by
        have := congrArg List.length hdrop
        simpa [pushEncode] using this
      have hidx : idx0 = sig.length := by omega
      cases fuel with
      | zero => simp [Script.pop_scan, lastLen, hidx]
      | succ f => simp [Script.pop_scan, lastLen, hidx]
  | cons c rest ih =>
      intro sig idx0 size0 fuel hwf hdrop hle hfuel
      cases fuel with
      | zero => simp at hfuel
      | succ f =>
          have hdrop' : sig.drop idx0 = c.length :: (c ++ pushEncode rest) := by
            simpa [pushEncode] using hdrop
          have hlendrop : sig.length - idx0 = 1 + c.length + (pushEncode rest).length := by
            have := congrArg List.length hdrop'
            simp at this
            omega
          have hidx : idx0 < sig.length := by omega
          have hop : sig.getD idx0 0 = c.length := by
            rw [getD_eq_headD_drop, hdrop']; rfl
          have hc1 := hwf c (by simp)
          have hdrop2 : sig.drop (idx0 + 1 + c.length) = pushEncode rest := by
            have h1 : sig.drop (idx0 + 1 + c.length) =
                ((sig.drop idx0).drop 1).drop c.length := by
              rw [List.drop_drop, List.drop_drop]
              congr 1
              omega
            rw [h1, hdrop']
            simpa using List.drop_left c (pushEncode rest)
          have hle2 : idx0 + 1 + c.length ≤ sig.length := by omega
          simp only [Script.pop_scan]
          rw [if_pos hidx]
          simp only [hop]
          rw [if_pos ⟨hc1.1, hc1.2⟩]
          rw [ih sig (idx0 + 1 + c.length) c.length f
            (fun c' hc' => hwf c' (by simp [hc'])) hdrop2 hle2 (by simp at hfuel; omega)]
          rw [lastLen_cons]

theorem pop_serialized_script_pushEncode (s : Script)
    (chunks : List (List Nat)) (dat : List Nat)
    (hsig : s.txin_scriptsig = pushEncode (chunks ++ [dat]))
    (hwf : ∀ c ∈ chunks ++ [dat], 1 ≤ c.length ∧ c.length ≤ 0x4b) :
    Script.pop_serialized_script s =
      some (dat, { s with txin_scriptsig := pushEncode chunks }) := by
  have hsplit : pushEncode (chunks ++ [dat]) =
      pushEncode chunks ++ dat.length :: dat := by
    simp [pushEncode_append, pushEncode]
  have hlen : s.txin_scriptsig.length =
      (pushEncode chunks).length + 1 + dat.length := by
    rw [hsig, hsplit]; simp; omega
  have hne : s.txin_scriptsig.isEmpty = false := by
    rw [hsig, hsplit]
    cases h : pushEncode chunks <;> simp [h]
  have hscan : Script.pop_scan (s.txin_scriptsig.length + 1) s.txin_scriptsig 0 0 =
      (s.txin_scriptsig.length, dat.length) := by
    have h1 := pop_scan_pushEncode (chunks ++ [dat]) s.txin_scriptsig 0 0
      (s.txin_scriptsig.length + 1) hwf (by simpa using hsig) (by omega)
      (by
        have h2 := length_le_pushEncode_length (chunks ++ [dat])
        rw [← hsig] at h2
        omega)
    rw [h1]
    have : lastLen (chunks ++ [dat]) 0 = dat.length := by
      simp [lastLen, List.getLast?_append]
    rw [this]
  unfold Script.pop_serialized_script
  dsimp only
  rw [hne]
  simp only [Bool.false_eq_true, if_false, hscan]
  simp only [if_true]
  have hstart : s.txin_scriptsig.length - dat.length = (pushEncode chunks).length + 1 := by
    omega
  have hdropdat : s.txin_scriptsig.drop ((pushEncode chunks).length + 1) = dat := by
    rw [hsig, hsplit, ← List.drop_drop, List.drop_left]
    rfl
  have htake : s.txin_scriptsig.take ((pushEncode chunks).length) = pushEncode chunks := by
    rw [hsig, hsplit]
    exact List.take_left ..
  rw [hstart, hdropdat, if_pos (show (pushEncode chunks).length + 1 > 0 by omega)]
  simp only [Nat.add_sub_cancel, htake]

theorem is_p2sh_iff (s : Script) :
    Script.is_pay_to_script_hash s = true ↔
      (1333238400 ≤ s.block_timestamp ∧ ∃ m : List Nat, m.length = 20 ∧
        s.txout_pkscript = 0xa9 :: 20 :: m ++ [0x87]) := by
  unfold Script.is_pay_to_script_hash
  constructor
  · intro h
    split_ifs at h with g1 g2 g3 g4 g5
    all_goals try simp at h
    have hlen : s.txout_pkscript.length = 23 := not_ne_iff.mp g2
    have h0 : s.txout_pkscript.getD 0 0 = 0xa9 := not_ne_iff.mp g3
    have h1 : s.txout_pkscript.getD 1 0 = 20 := not_ne_iff.mp g4
    have h22 : s.txout_pkscript.getD 22 0 = 0x87 := not_ne_iff.mp g5
    refine ⟨by omega, (s.txout_pkscript.drop 2).dropLast, ?_, ?_⟩
    · simp [List.length_dropLast, List.length_drop, hlen]
    · obtain ⟨a, l1, e1⟩ : ∃ a t, s.txout_pkscript = a :: t := by
        cases hl : s.txout_pkscript with
        | nil => rw [hl] at hlen; simp at hlen
        | cons a t => exact ⟨a, t, rfl⟩
      obtain ⟨b, l2, e2⟩ : ∃ b t, l1 = b :: t := by
        cases hl : l1 with
        | nil => rw [e1, hl] at hlen; simp at hlen
        | cons b t => exact ⟨b, t, rfl⟩
      rw [e1, e2] at h0 h1 h22 hlen ⊢
      simp only [List.getD_cons_zero, List.getD_cons_succ] at h0 h1 h22
      have hl2 : l2.length = 21 := by simp at hlen; omega
      have hne2 : l2 ≠ [] := by
        intro hc; rw [hc] at hl2; simp at hl2
      have hlast : l2.getLast hne2 = 0x87 := by
        rw [getLast_eq_getD l2 hne2, hl2]
        simpa using h22
      have hrt : l2.dropLast ++ [0x87] = l2 := by
        conv_rhs => rw [← List.dropLast_append_getLast hne2]
        rw [hlast]
      subst h0; subst h1
      simpa using hrt.symm
  · rintro ⟨hts, m, hm, hpk⟩
    rw [hpk]
    have hL : (0xa9 :: 20 :: m ++ [0x87] : List Nat).length = 23 := by simp [hm]
    have h22 : (0xa9 :: 20 :: m ++ [0x87] : List Nat).getD 22 0 = 0x87 := by
      show (m ++ [0x87] : List Nat).getD 20 0 = 0x87
      rw [getD_append_right m [0x87] 20 0 (by omega)]
      simp [hm]
    rw [if_neg (by omega), if_neg (not_ne_iff.mpr hL)]
    rw [if_neg (not_ne_iff.mpr
      (show (0xa9 :: 20 :: m ++ [0x87] : List Nat).getD 0 0 = 0xa9 from rfl))]
    rw [if_neg (not_ne_iff.mpr
      (show (0xa9 :: 20 :: m ++ [0x87] : List Nat).getD 1 0 = 20 from rfl))]
    rw [if_neg (not_ne_iff.mpr h22)]

set_option maxHeartbeats 1000000 in
/-- C5.  `Script::exec` and BIP-16: writing `first` for the result of the
normal evaluation pass over a fresh stack, (i) the P2SH gate holds iff
the block timestamp is at least 1333238400 and the scriptPubKey is the
23-byte `OP_HASH160 ‹20-byte push› OP_EQUAL` shape; (ii) if the first
pass set the invalid flag or the gate fails, `exec` reports the first
pass verbatim; (iii) otherwise, for a scriptSig made of data pushes
whose last push is `dat`, `exec` re-runs
`scriptSig-without-that-push ‖ dat` on a fresh empty stack with `pc` 0
and reports exactly that second pass's stack and invalid flag — so the
overall evaluation is valid (flag clear, truthy top) iff the second
pass ends that way. -/
theorem C5_exec_bip16 (C : Crypto) (fuel : Nat) (s r1 : Script)
    (h1 : Script.exec_loop C fuel { s with stack := [], pc := 0 } = some r1) :
    (Script.is_pay_to_script_hash r1 = true ↔
      (1333238400 ≤ s.block_timestamp ∧ ∃ m : List Nat, m.length = 20 ∧
        s.txout_pkscript = 0xa9 :: 20 :: m ++ [0x87])) ∧
    ((r1.transaction_invalid = true ∨ Script.is_pay_to_script_hash r1 = false) →
      Script.exec C fuel s = some ⟨r1.stack, r1.transaction_invalid⟩) ∧
    (∀ chunks dat,
      r1.transaction_invalid = false →
      Script.is_pay_to_script_hash r1 = true →
      s.txin_scriptsig = pushEncode (chunks ++ [dat]) →
      (∀ c ∈ chunks ++ [dat], 1 ≤ c.length ∧ c.length ≤ 0x4b) →
      Script.exec C fuel s =
        (Script.exec_loop C fuel
          { r1 with
            code := pushEncode chunks ++ dat,
            txin_scriptsig := pushEncode chunks,
            stack := [], pc := 0 }).map
          fun r2 => ⟨r2.stack, r2.transaction_invalid⟩) := by
  obtain ⟨hc, hsig, hpk, htx, hii, hts⟩ := exec_loop_static C fuel _ r1 h1
  have hcongr : Script.is_pay_to_script_hash r1 = Script.is_pay_to_script_hash s := by
    unfold Script.is_pay_to_script_hash
    rw [hpk, hts]
  refine ⟨by rw [hcongr]; exact is_p2sh_iff s, ?_, ?_⟩
  · intro hcase
    have hcond : (r1.transaction_invalid || !(Script.is_pay_to_script_hash r1)) = true := by
      rcases hcase with h | h <;> simp [h]
    unfold Script.exec
    rw [h1]
    simp only [Option.bind_eq_bind, Option.some_bind, hcond, if_true]
  · intro chunks dat hinv hp2sh hsig' hwf
    have hpop := pop_serialized_script_pushEncode r1 chunks dat
      (by rw [hsig]; exact hsig') hwf
    have hcond : (r1.transaction_invalid || !(Script.is_pay_to_script_hash r1)) = false := by
      simp [hinv, hp2sh]
    unfold Script.exec
    rw [h1]
    simp only [Option.bind_eq_bind, Option.some_bind, hcond, if_false, hpop]
    cases hr2 : Script.exec_loop C fuel
        { r1 with
          code := pushEncode chunks ++ dat,
          txin_scriptsig := pushEncode chunks,
          stack := [], pc := 0 } <;>
      simp [hr2]

/-- An oracle accepting every signature, for the C4 witness. -/
def c4Crypto : Crypto := ⟨fun _ => [], fun _ _ _ => some true⟩

/-- A one-input transaction for the C4 witness. -/
def c4Tx : Transaction := Transaction.new.add_input (List.replicate 32 0) 0 []

/-- A state about to run OP_CHECKSIG on pubkey `[0x02]` and signature
`[0x30, 0x05, 0x01]` (hashtype byte 1). -/
def c4State : Script :=
  ⟨[0xac], [], [0x99], [.array [0x02], .array [0x30, 0x05, 0x01]],
   0, c4Tx, false, 0, 0⟩

set_option maxHeartbeats 2000000 in
/-- Witness for C4 at a concrete state: with an all-accepting oracle the
check succeeds and pushes `true`. -/
theorem C4_checksig_preimage_witness :
    Script.op_checksig c4Crypto c4State =
      some { c4State with pc := 1, stack := [.bool true] } := by
  have h := C4_checksig_preimage c4Crypto c4State [0x02] [0x30, 0x05, 0x01] []
    rfl (by decide) (by decide)
  rw [h]
  decide

/-- The crypto oracle for the C5 witness: RIPEMD-160 stubbed to the
20-zero-byte digest. -/
def c5Crypto : Crypto := ⟨fun _ => List.replicate 20 0, fun _ _ _ => some false⟩

/-- The P2SH scriptPubKey `OP_HASH160 ‹20 zero bytes› OP_EQUAL`. -/
def c5PkScript : List Nat := 0xa9 :: 20 :: List.replicate 20 0 ++ [0x87]

/-- A scriptSig that is one push of the serialized script `[OP_1]`. -/
def c5Sig : List Nat := pushEncode [[0x51]]

/-- The C5 witness start state (timestamp exactly 1333238400). -/
def c5State : Script :=
  ⟨c5Sig ++ c5PkScript, c5Sig, c5PkScript, [], 0,
   Transaction.new, false, 0, 1333238400⟩

/-- The first pass of the C5 witness ends with a truthy comparison. -/
def c5R1 : Script :=
  ⟨c5Sig ++ c5PkScript, c5Sig, c5PkScript, [.bool true], 25,
   Transaction.new, false, 0, 1333238400⟩

set_option maxHeartbeats 2000000 in
/-- Witness for C5 at a concrete P2SH evaluation: the second pass runs
the popped serialized script `[OP_1]` and the result is its stack. -/
theorem C5_exec_bip16_witness :
    Script.exec c5Crypto 20 c5State = some ⟨[.number 1], false⟩ := by
  have hloop : Script.exec_loop c5Crypto 20 { c5State with stack := [], pc := 0 } =
      some c5R1 := by decide
  have h := (C5_exec_bip16 c5Crypto 20 c5State c5R1 hloop).2.2 [] [0x51]
    (by decide) (by decide) (by decide) (by decide)
  rw [h]
  decide

/-! ## message/*.rs — payload structures and codecs

Byte parsing follows the sources' monotone `index` arithmetic in cursor
style: `readBytes`/`readLE`/`readBE` consume from the front of the
remaining buffer and fail (`none` = slice panic) when it is too short.
Rust `String` fields are represented by their UTF-8 bytes; the
`str::from_utf8(...).unwrap()` calls are a `utf8Valid` guard whose
failure is the unwrap panic. -/

/-- Consume `k` bytes (`&bytes[index..index+k]`; `none` = slice panic). -/
def readBytes (k : Nat) (bs : List Nat) : Option (List Nat × List Nat) :=
  if k ≤ bs.length then some (bs.take k, bs.drop k) else none

/-- Consume a `k`-byte little-endian integer. -/
def readLE (k : Nat) (bs : List Nat) : Option (Nat × List Nat) :=
  (readBytes k bs).map fun p => (fromLE p.1, p.2)

/-- Consume a `k`-byte big-endian integer (the TCP port field). -/
def readBE (k : Nat) (bs : List Nat) : Option (Nat × List Nat) :=
  (readBytes k bs).map fun p => (fromBE p.1, p.2)

/-- Consume a VarInt (`VariableInteger::from_bytes` plus cursor step). -/
def readVI (bs : List Nat) : Option (Nat × List Nat) :=
  match VariableInteger.from_bytes bs with
  | some p => some (p.1, bs.drop p.2)
  | none => none

/-- Whether a byte continues a UTF-8 sequence. -/
def utf8Cont (b : Nat) : Bool := 0x80 ≤ b && b ≤ 0xBF

/-- RFC 3629 UTF-8 validity, as checked by `str::from_utf8`. -/
def utf8Valid : List Nat → Bool
  | [] => true
  | b :: rest =>
      if b ≤ 0x7F then utf8Valid rest
      else if 0xC2 ≤ b && b ≤ 0xDF then
        match rest with
        | c1 :: r => utf8Cont c1 && utf8Valid r
        | _ => false
      else if b = 0xE0 then
        match rest with
        | c1 :: c2 :: r => (0xA0 ≤ c1 && c1 ≤ 0xBF) && utf8Cont c2 && utf8Valid r
        | _ => false
      else if (0xE1 ≤ b && b ≤ 0xEC) || b = 0xEE || b = 0xEF then
        match rest with
        | c1 :: c2 :: r => utf8Cont c1 && utf8Cont c2 && utf8Valid r
        | _ => false
      else if b = 0xED then
        match rest with
        | c1 :: c2 :: r => (0x80 ≤ c1 && c1 ≤ 0x9F) && utf8Cont c2 && utf8Valid r
        | _ => false
      else if b = 0xF0 then
        match rest with
        | c1 :: c2 :: c3 :: r =>
            (0x90 ≤ c1 && c1 ≤ 0xBF) && utf8Cont c2 && utf8Cont c3 && utf8Valid r
        | _ => false
      else if 0xF1 ≤ b && b ≤ 0xF3 then
        match rest with
        | c1 :: c2 :: c3 :: r =>
            utf8Cont c1 && utf8Cont c2 && utf8Cont c3 && utf8Valid r
        | _ => false
      else if b = 0xF4 then
        match rest with
        | c1 :: c2 :: c3 :: r =>
            (0x80 ≤ c1 && c1 ≤ 0x8F) && utf8Cont c2 && utf8Cont c3 && utf8Valid r
        | _ => false
      else false

/-- A command name as its zero-padded 12-byte field (`fn name()`). -/
def padName (s : List Nat) : List Nat :=
  s ++ List.replicate (12 - s.length) 0

/-! ### network.rs address records -/

/-- `NetAddrVersion`: services, a 16-octet IPv6 address, big-endian port. -/
structure NetAddrVersion where
  services : Nat
  ip : List Nat
  port : Nat
  deriving DecidableEq

def NET_ADDR_VERSION_SIZE : Nat := 26

def NET_ADDR_SIZE : Nat := NET_ADDR_VERSION_SIZE + 4

def NetAddrVersion.bytes (a : NetAddrVersion) : List Nat :=
  leBytes 8 a.services ++ a.ip ++ beBytes 2 a.port

def NetAddrVersion.from_bytes (bs : List Nat) : Option NetAddrVersion := do
  let (services, bs) ← readLE 8 bs
  let (ip, bs) ← readBytes 16 bs
  let (port, _) ← readBE 2 bs
  pure ⟨services, ip, port⟩

/-- `NetAddr`: a last-seen timestamp plus a `NetAddrVersion`. -/
structure NetAddr where
  time : Nat
  net_addr_version : NetAddrVersion
  deriving DecidableEq

def NetAddr.bytes (a : NetAddr) : List Nat :=
  leBytes 4 a.time ++ a.net_addr_version.bytes

def NetAddr.from_bytes (bs : List Nat) : Option NetAddr := do
  let (time, bs) ← readLE 4 bs
  let nav ← NetAddrVersion.from_bytes bs
  pure ⟨time, nav⟩

/-! ### version.rs -/

structure MessageVersion where
  version : Nat
  services : Nat
  timestamp : Nat
  addr_recv : NetAddrVersion
  addr_from : NetAddrVersion
  nonce : Nat
  user_agent : List Nat
  start_height : Nat
  relay : Bool
  deriving DecidableEq

def MessageVersion.lengthN (m : MessageVersion) : Nat :=
  (4 + 8 + 8 + 26 + 26 + 8 + (VariableInteger.bytes m.user_agent.length).length +
    m.user_agent.length + 4 + 1) % 2 ^ 32

def MessageVersion.bytes (m : MessageVersion) : List Nat :=
  leBytes 4 m.version ++ leBytes 8 m.services ++ leBytes 8 m.timestamp ++
    m.addr_recv.bytes ++ m.addr_from.bytes ++ leBytes 8 m.nonce ++
    VariableInteger.bytes m.user_agent.length ++ m.user_agent ++
    leBytes 4 m.start_height ++ [if m.relay then 1 else 0]

/-- `MessageVersion::from_bytes`; the final
`assert_eq!(index, bytes.len())` requires exact consumption. -/
def MessageVersion.from_bytes (bs : List Nat) : Option MessageVersion := do
  let (version, bs) ← readLE 4 bs
  let (services, bs) ← readLE 8 bs
  let (timestamp, bs) ← readLE 8 bs
  let (ar, bs) ← readBytes NET_ADDR_VERSION_SIZE bs
  let addr_recv ← NetAddrVersion.from_bytes ar
  let (af, bs) ← readBytes NET_ADDR_VERSION_SIZE bs
  let addr_from ← NetAddrVersion.from_bytes af
  let (nonce, bs) ← readLE 8 bs
  let (ua_len, bs) ← readVI bs
  let (user_agent, bs) ← readBytes ua_len bs
  if utf8Valid user_agent then
    let (start_height, bs) ← readLE 4 bs
    let (relay_byte, bs) ← readBytes 1 bs
    if bs = [] then
      pure ⟨version, services, timestamp, addr_recv, addr_from, nonce,
        user_agent, start_height, relay_byte.getD 0 0 ≠ 0⟩
    else none
  else none

/-! ### ping.rs / pong.rs / feefilter.rs / verack.rs / getaddr.rs / sendheaders.rs -/

structure MessagePing where
  nonce : Nat
  deriving DecidableEq

def MessagePing.bytes (m : MessagePing) : List Nat := leBytes 8 m.nonce

def MessagePing.from_bytes (bs : List Nat) : Option MessagePing :=
  if bs.length = 8 then some ⟨fromLE bs⟩ else none

structure MessagePong where
  nonce : Nat
  deriving DecidableEq

def MessagePong.bytes (m : MessagePong) : List Nat := leBytes 8 m.nonce

def MessagePong.from_bytes (bs : List Nat) : Option MessagePong :=
  if bs.length = 8 then some ⟨fromLE bs⟩ else none

structure MessageFeeFilter where
  feerate : Nat
  deriving DecidableEq

def MessageFeeFilter.bytes (m : MessageFeeFilter) : List Nat := leBytes 8 m.feerate

def MessageFeeFilter.from_bytes (bs : List Nat) : Option MessageFeeFilter :=
  if bs.length = 8 then some ⟨fromLE bs⟩ else none

structure MessageVerack : Type where
  deriving DecidableEq

def MessageVerack.bytes (_ : MessageVerack) : List Nat := []

def MessageVerack.from_bytes (bs : List Nat) : Option MessageVerack :=
  if bs.isEmpty then some ⟨⟩ else none

structure MessageGetAddr : Type where
  deriving DecidableEq

def MessageGetAddr.bytes (_ : MessageGetAddr) : List Nat := []

def MessageGetAddr.from_bytes (bs : List Nat) : Option MessageGetAddr :=
  if bs.isEmpty then some ⟨⟩ else none

structure MessageSendHeaders : Type where
  deriving DecidableEq

def MessageSendHeaders.bytes (_ : MessageSendHeaders) : List Nat := []

def MessageSendHeaders.from_bytes (bs : List Nat) : Option MessageSendHeaders :=
  if bs.isEmpty then some ⟨⟩ else none

/-! ### addr.rs -/

structure MessageAddr where
  addr_list : List NetAddr
  deriving DecidableEq

def MessageAddr.lengthN (m : MessageAddr) : Nat :=
  ((VariableInteger.bytes m.addr_list.length).length +
    m.addr_list.length * NET_ADDR_SIZE) % 2 ^ 32

def MessageAddr.bytes (m : MessageAddr) : List Nat :=
  VariableInteger.bytes m.addr_list.length ++
    m.addr_list.flatMap NetAddr.bytes

/-- The `for _ in 0..addr_list_len` loop. -/
def readAddrList : Nat → List Nat → Option (List NetAddr × List Nat)
  | 0, bs => some ([], bs)
  | n + 1, bs => do
      let (chunk, bs) ← readBytes NET_ADDR_SIZE bs
      let addr ← NetAddr.from_bytes chunk
      let (addrs, bs) ← readAddrList n bs
      pure (addr :: addrs, bs)

def MessageAddr.from_bytes (bs : List Nat) : Option MessageAddr := do
  let (n, bs) ← readVI bs
  let (addr_list, _) ← readAddrList n bs
  pure ⟨addr_list⟩

/-! ### getheaders.rs / getblocks.rs -/

structure MessageGetHeaders where
  version : Nat
  block_locator_hashes : List (List Nat)
  hash_stop : List Nat
  deriving DecidableEq

def MessageGetHeaders.lengthN (m : MessageGetHeaders) : Nat :=
  (4 + (VariableInteger.bytes m.block_locator_hashes.length).length +
    32 * m.block_locator_hashes.length + 32) % 2 ^ 32

/-- `getheaders` serializes locator hashes RAW (no reversal). -/
def MessageGetHeaders.bytes (m : MessageGetHeaders) : List Nat :=
  leBytes 4 m.version ++
    VariableInteger.bytes m.block_locator_hashes.length ++
    m.block_locator_hashes.flatMap id ++ m.hash_stop

def readRawHashes : Nat → List Nat → Option (List (List Nat) × List Nat)
  | 0, bs => some ([], bs)
  | n + 1, bs => do
      let (h, bs) ← readBytes 32 bs
      let (hs, bs) ← readRawHashes n bs
      pure (h :: hs, bs)

def MessageGetHeaders.from_bytes (bs : List Nat) : Option MessageGetHeaders := do
  let (version, bs) ← readLE 4 bs
  let (n, bs) ← readVI bs
  let (hashes, bs) ← readRawHashes n bs
  let (hash_stop, _) ← readBytes 32 bs
  pure ⟨version, hashes, hash_stop⟩

structure MessageGetBlocks where
  version : Nat
  block_locator_hashes : List (List Nat)
  hash_stop : List Nat
  deriving DecidableEq

/-- `getblocks` serializes locator hashes through `hash32_to_bytes`
(reversal), unlike `getheaders`. -/
def MessageGetBlocks.bytes (m : MessageGetBlocks) : List Nat :=
  leBytes 4 m.version ++
    VariableInteger.bytes m.block_locator_hashes.length ++
    m.block_locator_hashes.flatMap hash32_to_bytes ++ hash32_to_bytes m.hash_stop

def readRevHashes : Nat → List Nat → Option (List (List Nat) × List Nat)
  | 0, bs => some ([], bs)
  | n + 1, bs => do
      let (h, bs) ← readBytes 32 bs
      let hh ← bytes_to_hash32 h
      let (hs, bs) ← readRevHashes n bs
      pure (hh :: hs, bs)

def MessageGetBlocks.from_bytes (bs : List Nat) : Option MessageGetBlocks := do
  let (version, bs) ← readLE 4 bs
  let (n, bs) ← readVI bs
  let (hashes, bs) ← readRevHashes n bs
  let (hs, _) ← readBytes 32 bs
  let hash_stop ← bytes_to_hash32 hs
  pure ⟨version, hashes, hash_stop⟩

/-! ### inv_base.rs and its three wrappers (inv.rs duplicates the
`inv_base.rs` structures and code verbatim, so all four share the
embedding below) -/

structure InvVect where
  hash_type : Nat
  hash : List Nat
  deriving DecidableEq

def hash_type_is_valid (hash_type : Nat) : Bool := hash_type ≤ 4

structure MessageInvBase where
  inventory : List InvVect
  deriving DecidableEq

def MessageInvBase.lengthN (m : MessageInvBase) : Nat :=
  ((VariableInteger.bytes m.inventory.length).length +
    m.inventory.length * (4 + 32)) % 2 ^ 32

def MessageInvBase.bytes (m : MessageInvBase) : List Nat :=
  VariableInteger.bytes m.inventory.length ++
    m.inventory.flatMap fun v => leBytes 4 v.hash_type ++ hash32_to_bytes v.hash

def readInvVects : Nat → List Nat → Option (List InvVect × List Nat)
  | 0, bs => some ([], bs)
  | n + 1, bs => do
      let (hash_type, bs) ← readLE 4 bs
      if hash_type_is_valid hash_type then
        let (hb, bs) ← readBytes 32 bs
        let hash ← bytes_to_hash32 hb
        let (vs, bs) ← readInvVects n bs
        pure (⟨hash_type, hash⟩ :: vs, bs)
      else none

def MessageInvBase.from_bytes (bs : List Nat) : Option MessageInvBase := do
  let (n, bs) ← readVI bs
  let (inventory, _) ← readInvVects n bs
  pure ⟨inventory⟩

structure MessageInv where
  inventory : List InvVect
  deriving DecidableEq

def MessageInv.bytes (m : MessageInv) : List Nat :=
  MessageInvBase.bytes ⟨m.inventory⟩

def MessageInv.from_bytes (bs : List Nat) : Option MessageInv :=
  (MessageInvBase.from_bytes bs).map fun b => ⟨b.inventory⟩

structure MessageGetData where
  base : MessageInvBase
  deriving DecidableEq

def MessageGetData.bytes (m : MessageGetData) : List Nat := m.base.bytes

def MessageGetData.from_bytes (bs : List Nat) : Option MessageGetData :=
  (MessageInvBase.from_bytes bs).map fun b => ⟨b⟩

structure MessageNotFound where
  base : MessageInvBase
  deriving DecidableEq

def MessageNotFound.bytes (m : MessageNotFound) : List Nat := m.base.bytes

def MessageNotFound.from_bytes (bs : List Nat) : Option MessageNotFound :=
  (MessageInvBase.from_bytes bs).map fun b => ⟨b⟩

/-! ### headers.rs -/

structure MessageBlockHeader where
  header : BlockHeader
  txn_count : Nat
  deriving DecidableEq

structure MessageHeaders where
  headers : List MessageBlockHeader
  deriving DecidableEq

def MessageHeaders.lengthN (m : MessageHeaders) : Nat :=
  ((VariableInteger.bytes m.headers.length).length +
    (m.headers.map fun h =>
      BlockHeader.lengthBytes + (VariableInteger.bytes h.txn_count).length).sum) % 2 ^ 32

def MessageHeaders.bytes (m : MessageHeaders) : List Nat :=
  VariableInteger.bytes m.headers.length ++
    m.headers.flatMap fun h => h.header.bytes ++ VariableInteger.bytes h.txn_count

/-- `BlockHeader::from_bytes`, cursor form (the callers hand it an
exactly-80-byte slice; it reads the first 80 bytes). -/
def BlockHeader.from_bytes (bs : List Nat) : Option BlockHeader := do
  let (version, bs) ← readLE 4 bs
  let (pb, bs) ← readBytes 32 bs
  let hash_prev_block ← bytes_to_hash32 pb
  let (mb, bs) ← readBytes 32 bs
  let hash_merkle_root ← bytes_to_hash32 mb
  let (time, bs) ← readLE 4 bs
  let (bits, bs) ← readLE 4 bs
  let (nonce, _) ← readLE 4 bs
  pure ⟨version, hash_prev_block, hash_merkle_root, time, bits, nonce⟩

def readBlockHeaders : Nat → List Nat → Option (List MessageBlockHeader × List Nat)
  | 0, bs => some ([], bs)
  | n + 1, bs => do
      let (hb, bs) ← readBytes BlockHeader.lengthBytes bs
      let header ← BlockHeader.from_bytes hb
      let (txn_count, bs) ← readVI bs
      let (hs, bs) ← readBlockHeaders n bs
      pure (⟨header, txn_count⟩ :: hs, bs)

def MessageHeaders.from_bytes (bs : List Nat) : Option MessageHeaders := do
  let (n, bs) ← readVI bs
  let (headers, _) ← readBlockHeaders n bs
  pure ⟨headers⟩

/-! ### block message; `Transaction::from_bytes` is spec-modelled -/

/-- Modelled from the spec: `Transaction::from_bytes` is called by
`Block::from_bytes` (block.rs line 146) but is absent from
transaction.rs in the sources.  Following spec §3 "Transaction" —
version u32 LE, VarInt input count, inputs (32-byte previous-tx hash,
u32 LE index, VarInt-length scriptSig, u32 LE sequence), VarInt output
count, outputs (u64 LE value, VarInt-length scriptPubKey), u32 LE
lock-time — and the `(tx, size)` return convention of its caller, it
consumes exactly the serialized form `Transaction::bytes` produces. -/
def readTxInputs : Nat → List Nat → Option (List TxInput × List Nat)
  | 0, bs => some ([], bs)
  | n + 1, bs => do
      let (tx, bs) ← readBytes 32 bs
      let (index, bs) ← readLE 4 bs
      let (sl, bs) ← readVI bs
      let (script_sig, bs) ← readBytes sl bs
      let (sequence, bs) ← readLE 4 bs
      let (is, bs) ← readTxInputs n bs
      pure (⟨tx, index, script_sig, sequence⟩ :: is, bs)

/-- Modelled from the spec (see `readTxInputs`). -/
def readTxOutputs : Nat → List Nat → Option (List TxOutput × List Nat)
  | 0, bs => some ([], bs)
  | n + 1, bs => do
      let (value, bs) ← readLE 8 bs
      let (pl, bs) ← readVI bs
      let (script_pub_key, bs) ← readBytes pl bs
      let (os, bs) ← readTxOutputs n bs
      pure (⟨value, script_pub_key⟩ :: os, bs)

/-- Modelled from the spec (see `readTxInputs`): parse one transaction
off the front of the buffer, returning it and the remaining bytes. -/
def Transaction.from_bytes (bs : List Nat) : Option (Transaction × List Nat) := do
  let (version, bs) ← readLE 4 bs
  let (ni, bs) ← readVI bs
  let (inputs, bs) ← readTxInputs ni bs
  let (no, bs) ← readVI bs
  let (outputs, bs) ← readTxOutputs no bs
  let (lock_time, bs) ← readLE 4 bs
  pure (⟨version, inputs, outputs, lock_time⟩, bs)

def readTxs : Nat → List Nat → Option (List Transaction × List Nat)
  | 0, bs => some ([], bs)
  | n + 1, bs => do
      let (tx, bs) ← Transaction.from_bytes bs
      let (ts, bs) ← readTxs n bs
      pure (tx :: ts, bs)

/-- `Block::from_bytes`. -/
def Block.from_bytes (bs : List Nat) : Option Block := do
  let (hb, bs) ← readBytes BlockHeader.lengthBytes bs
  let header ← BlockHeader.from_bytes hb
  let (tx_count, bs) ← readVI bs
  let (transactions, _) ← readTxs tx_count bs
  pure ⟨header, transactions⟩

structure MessageBlock where
  block : Block
  deriving DecidableEq

def MessageBlock.bytes (m : MessageBlock) : List Nat := m.block.bytes

/-- `MessageBlock::length`: `bytes().len().try_into().unwrap()` —
the unwrap panics at or above `2^32`. -/
def MessageBlock.lengthN (m : MessageBlock) : Option Nat :=
  if m.block.bytes.length < 2 ^ 32 then some m.block.bytes.length else none

def MessageBlock.from_bytes (bs : List Nat) : Option MessageBlock :=
  (Block.from_bytes bs).map fun b => ⟨b⟩

/-! ### alert.rs -/

/-- The Satoshi-client main-net alert key (`TRUSTED_PUBLIC_KEYS[0]`). -/
def alertKeyMain : List Nat :=
  [0x04, 0xfc, 0x97, 0x02, 0x84, 0x78, 0x40, 0xaa, 0xf1, 0x95, 0xde, 0x84,
   0x42, 0xeb, 0xec, 0xed, 0xf5, 0xb0, 0x95, 0xcd, 0xbb, 0x9b, 0xc7, 0x16,
   0xbd, 0xa9, 0x11, 0x09, 0x71, 0xb2, 0x8a, 0x49, 0xe0, 0xea, 0xd8, 0x56,
   0x4f, 0xf0, 0xdb, 0x22, 0x20, 0x9e, 0x03, 0x74, 0x78, 0x2c, 0x09, 0x3b,
   0xb8, 0x99, 0x69, 0x2d, 0x52, 0x4e, 0x9d, 0x6a, 0x69, 0x56, 0xe7, 0xc5,
   0xec, 0xbc, 0xd6, 0x82, 0x84]

/-- The test-net alert key (`TRUSTED_PUBLIC_KEYS[1]`). -/
def alertKeyTest : List Nat :=
  [0x04, 0x30, 0x23, 0x90, 0x34, 0x3f, 0x91, 0xcc, 0x40, 0x1d, 0x56, 0xd6,
   0x8b, 0x12, 0x30, 0x28, 0xbf, 0x52, 0xe5, 0xfc, 0xa1, 0x93, 0x9d, 0xf1,
   0x27, 0xf6, 0x3c, 0x64, 0x67, 0xcd, 0xf9, 0xc8, 0xe2, 0xc1, 0x4b, 0x61,
   0x10, 0x4c, 0xf8, 0x17, 0xd0, 0xb7, 0x80, 0xda, 0x33, 0x78, 0x93, 0xec,
   0xc4, 0xaa, 0xff, 0x13, 0x09, 0xe5, 0x36, 0x16, 0x2d, 0xab, 0xbd, 0xb4,
   0x52, 0x00, 0xca, 0x2b, 0x0a]

structure MessageAlert where
  version : Nat
  relay_until : Nat
  expiration : Nat
  id : Nat
  cancel : Nat
  set_cancel : List Nat
  min_ver : Nat
  max_ver : Nat
  sub_vers : List (List Nat)
  priority : Nat
  comment : List Nat
  status_bar : List Nat
  reserved : List Nat
  trusted : Bool
  deriving DecidableEq

def readU32s : Nat → List Nat → Option (List Nat × List Nat)
  | 0, bs => some ([], bs)
  | n + 1, bs => do
      let (v, bs) ← readLE 4 bs
      let (vs, bs) ← readU32s n bs
      pure (v :: vs, bs)

/-- A VarInt-length-prefixed string (used for `sub_vers` entries and the
three string fields). -/
def readVarString (bs : List Nat) : Option (List Nat × List Nat) := do
  let (n, bs) ← readVI bs
  let (s, bs) ← readBytes n bs
  if utf8Valid s then pure (s, bs) else none

def readVarStrings : Nat → List Nat → Option (List (List Nat) × List Nat)
  | 0, bs => some ([], bs)
  | n + 1, bs => do
      let (s, bs) ← readVarString bs
      let (ss, bs) ← readVarStrings n bs
      pure (s :: ss, bs)

/-- Fields `version` through `cancel` of an alert payload. -/
def alertStage1 (r : List Nat) :
    Option ((Nat × Nat × Nat × Nat × Nat) × List Nat) := do
  let (version, r) ← readLE 4 r
  let (relay_until, r) ← readLE 8 r
  let (expiration, r) ← readLE 8 r
  let (id, r) ← readLE 4 r
  let (cancel, r) ← readLE 4 r
  pure ((version, relay_until, expiration, id, cancel), r)

/-- Fields `set_cancel` through `sub_vers`. -/
def alertStage2 (r : List Nat) :
    Option ((List Nat × Nat × Nat × List (List Nat)) × List Nat) := do
  let (ncancel, r) ← readVI r
  let (set_cancel, r) ← readU32s ncancel r
  let (min_ver, r) ← readLE 4 r
  let (max_ver, r) ← readLE 4 r
  let (nsub, r) ← readVI r
  let (sub_vers, r) ← readVarStrings nsub r
  pure ((set_cancel, min_ver, max_ver, sub_vers), r)

/-- Fields `priority` through `reserved`. -/
def alertStage3 (r : List Nat) :
    Option ((Nat × List Nat × List Nat × List Nat) × List Nat) := do
  let (priority, r) ← readLE 4 r
  let (comment, r) ← readVarString r
  let (status_bar, r) ← readVarString r
  let (reserved, r) ← readVarString r
  pure ((priority, comment, status_bar, reserved), r)

/-- `MessageAlert::from_bytes`: parse the length-prefixed payload, then
mark `trusted` by checking the trailing signature against the two
trusted keys (`C.check_signature`; an `Err` counts as untrusted). -/
def MessageAlert.from_bytes (C : Crypto) (bs : List Nat) : Option MessageAlert := do
  let (_, r0) ← readVI bs
  let payload_len_size := bs.length - r0.length
  let (f1, r) ← alertStage1 r0
  let (f2, r) ← alertStage2 r
  let (f3, r) ← alertStage3 r
  let payload_bytes := (bs.drop payload_len_size).take (bs.length - payload_len_size - r.length)
  let (_, signature) ← readVI r
  let t1 := match C.check_signature alertKeyMain signature (hash32 payload_bytes) with
    | some res => res
    | none => false
  let trusted := if t1 then t1 else
    match C.check_signature alertKeyTest signature (hash32 payload_bytes) with
    | some res => res
    | none => false
  pure ⟨f1.1, f1.2.1, f1.2.2.1, f1.2.2.2.1, f1.2.2.2.2, f2.1, f2.2.1, f2.2.2.1,
    f2.2.2.2, f3.1, f3.2.1, f3.2.2.1, f3.2.2.2, trusted⟩

/-! ### message/mod.rs — the message sum, envelope and parser -/

def MAGIC_MAIN : Nat := 0xD9B4BEF9

def MAGIC_TESTNET : Nat := 0xDAB5BFFA

def MAGIC_TESTNET3 : Nat := 0x0709110B

def MAGIC_NAMECOIN : Nat := 0xFEB4BEF9

/-- `enum MessageType`: each variant is a `Message<T>` (magic plus
command payload). -/
inductive MessageType where
  | version (magic : Nat) (c : MessageVersion)
  | alert (magic : Nat) (c : MessageAlert)
  | verack (magic : Nat) (c : MessageVerack)
  | addr (magic : Nat) (c : MessageAddr)
  | getaddr (magic : Nat) (c : MessageGetAddr)
  | ping (magic : Nat) (c : MessagePing)
  | pong (magic : Nat) (c : MessagePong)
  | getheaders (magic : Nat) (c : MessageGetHeaders)
  | feefilter (magic : Nat) (c : MessageFeeFilter)
  | sendheaders (magic : Nat) (c : MessageSendHeaders)
  | inv (magic : Nat) (c : MessageInv)
  | getdata (magic : Nat) (c : MessageGetData)
  | getblocks (magic : Nat) (c : MessageGetBlocks)
  | notfound (magic : Nat) (c : MessageNotFound)
  | headers (magic : Nat) (c : MessageHeaders)
  | block (magic : Nat) (c : MessageBlock)
  deriving DecidableEq

/-- The magic the message was built with. -/
def magicOf : MessageType → Nat
  | .version m _ => m | .alert m _ => m | .verack m _ => m | .addr m _ => m
  | .getaddr m _ => m | .ping m _ => m | .pong m _ => m | .getheaders m _ => m
  | .feefilter m _ => m | .sendheaders m _ => m | .inv m _ => m
  | .getdata m _ => m | .getblocks m _ => m | .notfound m _ => m
  | .headers m _ => m | .block m _ => m

/-- The ASCII command name (`NAME`), unpadded. -/
def rawName : MessageType → List Nat
  | .version _ _ => [118, 101, 114, 115, 105, 111, 110]
  | .alert _ _ => [97, 108, 101, 114, 116]
  | .verack _ _ => [118, 101, 114, 97, 99, 107]
  | .addr _ _ => [97, 100, 100, 114]
  | .getaddr _ _ => [103, 101, 116, 97, 100, 100, 114]
  | .ping _ _ => [112, 105, 110, 103]
  | .pong _ _ => [112, 111, 110, 103]
  | .getheaders _ _ => [103, 101, 116, 104, 101, 97, 100, 101, 114, 115]
  | .feefilter _ _ => [102, 101, 101, 102, 105, 108, 116, 101, 114]
  | .sendheaders _ _ => [115, 101, 110, 100, 104, 101, 97, 100, 101, 114, 115]
  | .inv _ _ => [105, 110, 118]
  | .getdata _ _ => [103, 101, 116, 100, 97, 116, 97]
  | .getblocks _ _ => [103, 101, 116, 98, 108, 111, 99, 107, 115]
  | .notfound _ _ => [110, 111, 116, 102, 111, 117, 110, 100]
  | .headers _ _ => [104, 101, 97, 100, 101, 114, 115]
  | .block _ _ => [98, 108, 111, 99, 107]

/-- `self.command.bytes()`.  The alert variant's serializer calls the
external randomized ECDSA signer (`crypto::sign`), so its output is not
a function of the message: modelled as undefined (and `Message::bytes`
panics on its `length()` anyway, see `commandLength`). -/
def commandPayload : MessageType → Option (List Nat)
  | .version _ c => some c.bytes
  | .alert _ _ => none
  | .verack _ c => some c.bytes
  | .addr _ c => some c.bytes
  | .getaddr _ c => some c.bytes
  | .ping _ c => some c.bytes
  | .pong _ c => some c.bytes
  | .getheaders _ c => some c.bytes
  | .feefilter _ c => some c.bytes
  | .sendheaders _ c => some c.bytes
  | .inv _ c => some c.bytes
  | .getdata _ c => some c.bytes
  | .getblocks _ c => some c.bytes
  | .notfound _ c => some c.bytes
  | .headers _ c => some c.bytes
  | .block _ c => some c.bytes

/-- `self.command.length()`; the `as u32` casts wrap, `MessageBlock`'s
`try_into().unwrap()` and `MessageAlert`'s `panic!("Not implemented")`
are `none`. -/
def commandLength : MessageType → Option Nat
  | .version _ c => some c.lengthN
  | .alert _ _ => none
  | .verack _ _ => some 0
  | .addr _ c => some c.lengthN
  | .getaddr _ _ => some 0
  | .ping _ _ => some 8
  | .pong _ _ => some 8
  | .getheaders _ c => some c.lengthN
  | .feefilter _ _ => some 8
  | .sendheaders _ _ => some 0
  | .inv _ c => some (MessageInvBase.lengthN ⟨c.inventory⟩)
  | .getdata _ c => some c.base.lengthN
  | .getblocks _ c => some ((4 +
      (VariableInteger.bytes c.block_locator_hashes.length).length +
      c.block_locator_hashes.length * 4 + 4) % 2 ^ 32)
  | .notfound _ c => some c.base.lengthN
  | .headers _ c => some c.lengthN
  | .block _ c => c.lengthN

/-- `Message::bytes`: magic, 12-byte zero-padded name, LE32 payload
length, first four bytes of `hash32(payload)`, payload. -/
def messageBytes (m : MessageType) : Option (List Nat) := do
  let command_bytes ← commandPayload m
  let checksum := (hash32 command_bytes).take 4
  let command_length ← commandLength m
  pure (leBytes 4 (magicOf m) ++ padName (rawName m) ++
    leBytes 4 command_length ++ checksum ++ command_bytes)

/-- `enum ParseError` (`Partial` is `moreNeeded`). -/
inductive ParseError where
  | invalidMagicBytes
  | invalidChecksum
  | unknownMessage (name : List Nat)
  | moreNeeded (needed : Nat)
  deriving DecidableEq

/-- `check_size`. -/
def check_size (bytes : List Nat) (length : Nat) : Bool :=
  length ≤ bytes.length

/-- The command-name dispatch at the end of `parse`, in source order.
`none` is a panic inside the selected `from_bytes`. -/
def parseDispatch (C : Crypto) (magic : Nat) (name payload : List Nat)
    (consumed : Nat) : Option (Except ParseError (MessageType × Nat)) :=
  if name = [118, 101, 114, 115, 105, 111, 110] then
    match MessageVersion.from_bytes payload with
    | some command => some (.ok (.version magic command, consumed))
    | none => none
  else if name = [97, 108, 101, 114, 116] then
    match MessageAlert.from_bytes C payload with
    | some command => some (.ok (.alert magic command, consumed))
    | none => none
  else if name = [118, 101, 114, 97, 99, 107] then
    match MessageVerack.from_bytes payload with
    | some command => some (.ok (.verack magic command, consumed))
    | none => none
  else if name = [103, 101, 116, 97, 100, 100, 114] then
    match MessageGetAddr.from_bytes payload with
    | some command => some (.ok (.getaddr magic command, consumed))
    | none => none
  else if name = [97, 100, 100, 114] then
    match MessageAddr.from_bytes payload with
    | some command => some (.ok (.addr magic command, consumed))
    | none => none
  else if name = [112, 105, 110, 103] then
    match MessagePing.from_bytes payload with
    | some command => some (.ok (.ping magic command, consumed))
    | none => none
  else if name = [112, 111, 110, 103] then
    match MessagePong.from_bytes payload with
    | some command => some (.ok (.pong magic command, consumed))
    | none => none
  else if name = [103, 101, 116, 104, 101, 97, 100, 101, 114, 115] then
    match MessageGetHeaders.from_bytes payload with
    | some command => some (.ok (.getheaders magic command, consumed))
    | none => none
  else if name = [102, 101, 101, 102, 105, 108, 116, 101, 114] then
    match MessageFeeFilter.from_bytes payload with
    | some command => some (.ok (.feefilter magic command, consumed))
    | none => none
  else if name = [115, 101, 110, 100, 104, 101, 97, 100, 101, 114, 115] then
    match MessageSendHeaders.from_bytes payload with
    | some command => some (.ok (.sendheaders magic command, consumed))
    | none => none
  else if name = [105, 110, 118] then
    match MessageInv.from_bytes payload with
    | some command => some (.ok (.inv magic command, consumed))
    | none => none
  else if name = [103, 101, 116, 98, 108, 111, 99, 107, 115] then
    match MessageGetBlocks.from_bytes payload with
    | some command => some (.ok (.getblocks magic command, consumed))
    | none => none
  else if name = [103, 101, 116, 100, 97, 116, 97] then
    match MessageGetData.from_bytes payload with
    | some command => some (.ok (.getdata magic command, consumed))
    | none => none
  else if name = [110, 111, 116, 102, 111, 117, 110, 100] then
    match MessageNotFound.from_bytes payload with
    | some command => some (.ok (.notfound magic command, consumed))
    | none => none
  else if name = [104, 101, 97, 100, 101, 114, 115] then
    match MessageHeaders.from_bytes payload with
    | some command => some (.ok (.headers magic command, consumed))
    | none => none
  else if name = [98, 108, 111, 99, 107] then
    match MessageBlock.from_bytes payload with
    | some command => some (.ok (.block magic command, consumed))
    | none => none
  else some (.error (.unknownMessage name))

/-- `message::parse`: envelope checks (magic membership, sizes with
`Partial` bookkeeping, checksum) then the name dispatch.  The name is
the 12-byte field up to its first zero byte (`first_zero` stays 0 when
no zero occurs, as in the source); an invalid-UTF-8 name is the
`from_utf8(...).unwrap()` panic. -/
def parse (C : Crypto) (bytes : List Nat) :
    Option (Except ParseError (MessageType × Nat)) :=
  if !check_size bytes 4 then some (.error (.moreNeeded (24 - bytes.length)))
  else
    let magic := fromLE (bytes.take 4)
    if !(magic = MAGIC_MAIN || magic = MAGIC_TESTNET || magic = MAGIC_TESTNET3) then
      some (.error .invalidMagicBytes)
    else if !check_size bytes 16 then some (.error (.moreNeeded (24 - bytes.length)))
    else
      let name12 := (bytes.drop 4).take 12
      let first_zero := (name12.findIdx? fun b => b = 0).getD 0
      let name := name12.take first_zero
      if !utf8Valid name then none
      else if !check_size bytes 20 then some (.error (.moreNeeded (24 - bytes.length)))
      else
        let length := fromLE ((bytes.drop 16).take 4)
        if !check_size bytes 24 then
          some (.error (.moreNeeded (24 + length - bytes.length)))
        else
          let checksum := (bytes.drop 20).take 4
          if !check_size bytes (24 + length) then
            some (.error (.moreNeeded (24 + length - bytes.length)))
          else
            let payload := (bytes.drop 24).take length
            if (hash32 payload).take 4 ≠ checksum then
              some (.error .invalidChecksum)
            else parseDispatch C magic name payload (24 + length)

/-! ## Round-trip lemmas for the message codecs -/

theorem beBytes_length (w n : Nat) : (beBytes w n).length = w := by
  simp [beBytes, leBytes_length]

theorem fromBE_beBytes (w n : Nat) : fromBE (beBytes w n) = n % 256 ^ w := by
  have h : fromBE (beBytes w n) = fromLE (leBytes w n) := by
    simp only [fromBE, beBytes, fromLE, List.foldl_reverse]
    congr 1
    funext x y
    exact Nat.add_comm _ _
  rw [h, fromLE_leBytes]

theorem sha256_length (l : List Nat) : (sha256 l).length = 32 := by
  simp [sha256, beBytes_length]

theorem hash32_length (l : List Nat) : (hash32 l).length = 32 := by
  simp [hash32, sha256_length]

theorem readBytes_append (x rest : List Nat) :
    readBytes x.length (x ++ rest) = some (x, rest) := by
  unfold readBytes
  rw [if_pos (by simp), List.take_left, List.drop_left]

theorem readBytes_append_of_length (k : Nat) (x rest : List Nat)
    (h : x.length = k) : readBytes k (x ++ rest) = some (x, rest) := by
  subst h
  exact readBytes_append x rest

theorem readLE_append (k v : Nat) (rest : List Nat) (h : v < 256 ^ k) :
    readLE k (leBytes k v ++ rest) = some (v, rest) := by
  unfold readLE
  rw [readBytes_append_of_length k _ _ (leBytes_length k v)]
  simp [fromLE_leBytes, Nat.mod_eq_of_lt h]

theorem readBE_append (k v : Nat) (rest : List Nat) (h : v < 256 ^ k) :
    readBE k (beBytes k v ++ rest) = some (v, rest) := by
  unfold readBE
  rw [readBytes_append_of_length k _ _ (beBytes_length k v)]
  simp [fromBE_beBytes, Nat.mod_eq_of_lt h]

theorem VariableInteger.from_bytes_small (b : Nat) (t : List Nat)
    (h : b < 0xFD) : VariableInteger.from_bytes (b :: t) = some (b, 1) := by
  simp [VariableInteger.from_bytes, h]

theorem VariableInteger.from_bytes_fd (t : List Nat) (h : 2 ≤ t.length) :
    VariableInteger.from_bytes (0xFD :: t) = some (fromLE (t.take 2), 3) := by
  simp [VariableInteger.from_bytes, show (3:Nat) ≤ t.length + 1 from by omega]

theorem VariableInteger.from_bytes_fe (t : List Nat) (h : 4 ≤ t.length) :
    VariableInteger.from_bytes (0xFE :: t) = some (fromLE (t.take 4), 5) := by
  simp [VariableInteger.from_bytes, show (5:Nat) ≤ t.length + 1 from by omega]

theorem VariableInteger.from_bytes_ff (t : List Nat) (h : 8 ≤ t.length) :
    VariableInteger.from_bytes (0xFF :: t) = some (fromLE (t.take 8), 9) := by
  simp [VariableInteger.from_bytes, show (9:Nat) ≤ t.length + 1 from by omega]

theorem readVI_append (n : Nat) (rest : List Nat) (h : n < 2 ^ 64) :
    readVI (VariableInteger.bytes n ++ rest) = some (n, rest) := by
  rw [VariableInteger.bytes_eq]
  by_cases h1 : n < 0xFD
  · rw [if_pos h1]
    unfold readVI
    rw [List.cons_append, List.nil_append,
      VariableInteger.from_bytes_small n rest h1]
    dsimp only
    rw [show (1:Nat) = 0 + 1 from rfl, List.drop_succ_cons, List.drop_zero]
  · rw [if_neg h1]
    by_cases h2 : n ≤ 0xFFFF
    · rw [if_pos h2]
      unfold readVI
      rw [List.cons_append]
      have hl := leBytes_length 2 n
      rw [VariableInteger.from_bytes_fd _ (by simp [hl])]
      have ht : (leBytes 2 n ++ rest).take 2 = leBytes 2 n := by
        rw [← hl]
        exact List.take_left _ _
      have hd : (leBytes 2 n ++ rest).drop 2 = rest := by
        rw [← hl]
        exact List.drop_left _ _
      dsimp only
      rw [ht, fromLE_leBytes, Nat.mod_eq_of_lt (by norm_num; omega),
        show (3:Nat) = 2 + 1 from rfl, List.drop_succ_cons, hd]
    · rw [if_neg h2]
      by_cases h3 : n ≤ 0xFFFFFFFF
      · rw [if_pos h3]
        unfold readVI
        rw [List.cons_append]
        have hl := leBytes_length 4 n
        rw [VariableInteger.from_bytes_fe _ (by simp [hl])]
        have ht : (leBytes 4 n ++ rest).take 4 = leBytes 4 n := by
          rw [← hl]
          exact List.take_left _ _
        have hd : (leBytes 4 n ++ rest).drop 4 = rest := by
          rw [← hl]
          exact List.drop_left _ _
        dsimp only
        rw [ht, fromLE_leBytes, Nat.mod_eq_of_lt (by norm_num; omega),
          show (5:Nat) = 4 + 1 from rfl, List.drop_succ_cons, hd]
      · rw [if_neg h3]
        unfold readVI
        rw [List.cons_append]
        have hl := leBytes_length 8 n
        rw [VariableInteger.from_bytes_ff _ (by simp [hl])]
        have ht : (leBytes 8 n ++ rest).take 8 = leBytes 8 n := by
          rw [← hl]
          exact List.take_left _ _
        have hd : (leBytes 8 n ++ rest).drop 8 = rest := by
          rw [← hl]
          exact List.drop_left _ _
        dsimp only
        rw [ht, fromLE_leBytes, Nat.mod_eq_of_lt (by norm_num; omega),
          show (9:Nat) = 8 + 1 from rfl, List.drop_succ_cons, hd]

/-- `some x >>= f` steps to `f x`. -/
theorem bindStep {α β : Type} (a : α) (f : α → Option β) :
    (some a >>= f) = f a := rfl

/-- Field bounds under which a `NetAddrVersion` serializes losslessly. -/
def NetAddrVersion.wf (a : NetAddrVersion) : Prop :=
  a.services < 256 ^ 8 ∧ a.ip.length = 16 ∧ a.port < 256 ^ 2

theorem netAddrVersion_bytes_length (a : NetAddrVersion)
    (h : a.ip.length = 16) : a.bytes.length = 26 := by
  simp [NetAddrVersion.bytes, leBytes_length, beBytes_length, h]

theorem netAddrVersion_roundtrip (a : NetAddrVersion) (rest : List Nat)
    (h : a.wf) : NetAddrVersion.from_bytes (a.bytes ++ rest) = some a := by
  obtain ⟨hs, hip, hp⟩ := h
  unfold NetAddrVersion.from_bytes NetAddrVersion.bytes
  rw [List.append_assoc, List.append_assoc, readLE_append 8 _ _ hs, bindStep]
  dsimp only
  rw [readBytes_append_of_length 16 _ _ hip, bindStep]
  dsimp only
  rw [readBE_append 2 _ _ hp, bindStep]
  rfl

/-- Field bounds under which a `NetAddr` serializes losslessly. -/
def NetAddr.wf (a : NetAddr) : Prop :=
  a.time < 256 ^ 4 ∧ a.net_addr_version.wf

theorem netAddr_bytes_length (a : NetAddr)
    (h : a.net_addr_version.ip.length = 16) : a.bytes.length = 30 := by
  simp [NetAddr.bytes, leBytes_length, netAddrVersion_bytes_length _ h]

theorem netAddr_roundtrip (a : NetAddr) (rest : List Nat) (h : a.wf) :
    NetAddr.from_bytes (a.bytes ++ rest) = some a := by
  obtain ⟨ht, hv⟩ := h
  unfold NetAddr.from_bytes NetAddr.bytes
  rw [List.append_assoc, readLE_append 4 _ _ ht, bindStep]
  dsimp only
  rw [netAddrVersion_roundtrip _ rest hv, bindStep]
  rfl

def MessagePing.wf (m : MessagePing) : Prop := m.nonce < 256 ^ 8

theorem ping_roundtrip (m : MessagePing) (h : m.wf) :
    MessagePing.from_bytes m.bytes = some m := by
  unfold MessagePing.from_bytes MessagePing.bytes
  rw [if_pos (leBytes_length 8 m.nonce), fromLE_leBytes, Nat.mod_eq_of_lt h]

def MessagePong.wf (m : MessagePong) : Prop := m.nonce < 256 ^ 8

theorem pong_roundtrip (m : MessagePong) (h : m.wf) :
    MessagePong.from_bytes m.bytes = some m := by
  unfold MessagePong.from_bytes MessagePong.bytes
  rw [if_pos (leBytes_length 8 m.nonce), fromLE_leBytes, Nat.mod_eq_of_lt h]

def MessageFeeFilter.wf (m : MessageFeeFilter) : Prop := m.feerate < 256 ^ 8

theorem feefilter_roundtrip (m : MessageFeeFilter) (h : m.wf) :
    MessageFeeFilter.from_bytes m.bytes = some m := by
  unfold MessageFeeFilter.from_bytes MessageFeeFilter.bytes
  rw [if_pos (leBytes_length 8 m.feerate), fromLE_leBytes, Nat.mod_eq_of_lt h]

theorem verack_roundtrip (m : MessageVerack) :
    MessageVerack.from_bytes m.bytes = some m := rfl

theorem getaddr_roundtrip (m : MessageGetAddr) :
    MessageGetAddr.from_bytes m.bytes = some m := rfl

theorem sendheaders_roundtrip (m : MessageSendHeaders) :
    MessageSendHeaders.from_bytes m.bytes = some m := rfl

/-- Field bounds under which a `MessageVersion` serializes losslessly. -/
def MessageVersion.wf (m : MessageVersion) : Prop :=
  m.version < 256 ^ 4 ∧ m.services < 256 ^ 8 ∧ m.timestamp < 256 ^ 8 ∧
  m.addr_recv.wf ∧ m.addr_from.wf ∧ m.nonce < 256 ^ 8 ∧
  m.user_agent.length < 2 ^ 64 ∧ utf8Valid m.user_agent = true ∧
  m.start_height < 256 ^ 4

theorem version_roundtrip (m : MessageVersion) (h : m.wf) :
    MessageVersion.from_bytes m.bytes = some m := by
  obtain ⟨ver, srv, ts, ar, af, non, ua, sh, rel⟩ := m
  obtain ⟨h1, h2, h3, h4, h5, h6, h7, h8, h9⟩ := h
  have har : NetAddrVersion.from_bytes ar.bytes = some ar := by
    have hx := netAddrVersion_roundtrip ar [] h4
    rwa [List.append_nil] at hx
  have haf : NetAddrVersion.from_bytes af.bytes = some af := by
    have hx := netAddrVersion_roundtrip af [] h5
    rwa [List.append_nil] at hx
  unfold MessageVersion.from_bytes MessageVersion.bytes
  try dsimp only
  simp only [List.append_assoc]
  rw [readLE_append 4 _ _ h1, bindStep]
  try dsimp only
  rw [readLE_append 8 _ _ h2, bindStep]
  try dsimp only
  rw [readLE_append 8 _ _ h3, bindStep]
  try dsimp only
  rw [readBytes_append_of_length NET_ADDR_VERSION_SIZE _ _
    (show (NetAddrVersion.bytes ar).length = NET_ADDR_VERSION_SIZE from
      netAddrVersion_bytes_length _ h4.2.1), bindStep]
  try dsimp only
  rw [har, bindStep]
  try dsimp only
  rw [readBytes_append_of_length NET_ADDR_VERSION_SIZE _ _
    (show (NetAddrVersion.bytes af).length = NET_ADDR_VERSION_SIZE from
      netAddrVersion_bytes_length _ h5.2.1), bindStep]
  try dsimp only
  rw [haf, bindStep]
  try dsimp only
  rw [readLE_append 8 _ _ h6, bindStep]
  try dsimp only
  rw [readVI_append _ _ h7, bindStep]
  try dsimp only
  rw [readBytes_append, bindStep]
  try dsimp only
  rw [if_pos h8]
  rw [readLE_append 4 _ _ h9, bindStep]
  try dsimp only
  rw [show readBytes 1 [(if rel then (1:Nat) else 0)] =
      some ([(if rel then (1:Nat) else 0)], []) from rfl, bindStep]
  try dsimp only
  rw [if_pos rfl]
  cases rel <;> simp

theorem readBytes_exact (bs : List Nat) : readBytes bs.length bs = some (bs, []) := by
  have h := readBytes_append bs []
  rwa [List.append_nil] at h

/-- Field bounds under which a `MessageAddr` serializes losslessly. -/
def MessageAddr.wf (m : MessageAddr) : Prop :=
  m.addr_list.length < 2 ^ 64 ∧ ∀ a ∈ m.addr_list, NetAddr.wf a

theorem readAddrList_append (l : List NetAddr) (rest : List Nat)
    (h : ∀ a ∈ l, NetAddr.wf a) :
    readAddrList l.length (l.flatMap NetAddr.bytes ++ rest) = some (l, rest) := by
  induction l with
  | nil => rfl
  | cons a t ih =>
      have ha := h a (List.mem_cons_self a t)
      have hfa : NetAddr.from_bytes a.bytes = some a := by
        have hx := netAddr_roundtrip a [] ha
        rwa [List.append_nil] at hx
      simp only [List.flatMap_cons, List.length_cons, List.append_assoc]
      unfold readAddrList
      rw [readBytes_append_of_length NET_ADDR_SIZE _ _
        (show (NetAddr.bytes a).length = NET_ADDR_SIZE from
          netAddr_bytes_length a ha.2.2.1), bindStep]
      try dsimp only
      rw [hfa, bindStep]
      try dsimp only
      rw [ih (fun x hx => h x (List.mem_cons_of_mem a hx)), bindStep]
      rfl

theorem addr_roundtrip (m : MessageAddr) (h : m.wf) :
    MessageAddr.from_bytes m.bytes = some m := by
  obtain ⟨hn, hl⟩ := h
  unfold MessageAddr.from_bytes MessageAddr.bytes
  rw [readVI_append _ _ hn, bindStep]
  try dsimp only
  have hx := readAddrList_append m.addr_list [] hl
  rw [List.append_nil] at hx
  rw [hx, bindStep]
  rfl

/-- Field bounds under which a `MessageGetHeaders` serializes losslessly. -/
def MessageGetHeaders.wf (m : MessageGetHeaders) : Prop :=
  m.version < 256 ^ 4 ∧ m.block_locator_hashes.length < 2 ^ 64 ∧
  (∀ x ∈ m.block_locator_hashes, x.length = 32) ∧ m.hash_stop.length = 32

theorem readRawHashes_append (l : List (List Nat)) (rest : List Nat)
    (h : ∀ x ∈ l, x.length = 32) :
    readRawHashes l.length (l.flatMap id ++ rest) = some (l, rest) := by
  induction l with
  | nil => rfl
  | cons a t ih =>
      simp only [List.flatMap_cons, List.length_cons, List.append_assoc, id]
      unfold readRawHashes
      rw [readBytes_append_of_length 32 _ _ (h a (List.mem_cons_self a t)),
        bindStep]
      try dsimp only
      rw [ih (fun x hx => h x (List.mem_cons_of_mem a hx)), bindStep]
      rfl

theorem getheaders_roundtrip (m : MessageGetHeaders) (h : m.wf) :
    MessageGetHeaders.from_bytes m.bytes = some m := by
  obtain ⟨h1, h2, h3, h4⟩ := h
  unfold MessageGetHeaders.from_bytes MessageGetHeaders.bytes
  simp only [List.append_assoc]
  rw [readLE_append 4 _ _ h1, bindStep]
  try dsimp only
  rw [readVI_append _ _ h2, bindStep]
  try dsimp only
  rw [readRawHashes_append _ _ h3, bindStep]
  try dsimp only
  rw [show readBytes 32 m.hash_stop = some (m.hash_stop, []) from by
    rw [← h4]
    exact readBytes_exact m.hash_stop, bindStep]
  rfl

/-- Conditions under which an `InvVect` serializes losslessly. -/
def InvVect.wf (v : InvVect) : Prop :=
  hash_type_is_valid v.hash_type = true ∧ v.hash.length = 32

theorem hash32_roundtrip (x : List Nat) (h : x.length = 32) :
    bytes_to_hash32 (hash32_to_bytes x) = some x := by
  unfold bytes_to_hash32 hash32_to_bytes
  rw [if_pos (by simp [h])]
  simp

/-- Field bounds under which a `MessageInvBase` serializes losslessly. -/
def MessageInvBase.wf (m : MessageInvBase) : Prop :=
  m.inventory.length < 2 ^ 64 ∧ ∀ v ∈ m.inventory, v.wf

theorem readInvVects_append (l : List InvVect) (rest : List Nat)
    (h : ∀ v ∈ l, v.wf) :
    readInvVects l.length
      ((l.flatMap fun v => leBytes 4 v.hash_type ++ hash32_to_bytes v.hash) ++
        rest) = some (l, rest) := by
  induction l with
  | nil => rfl
  | cons a t ih =>
      have ha := h a (List.mem_cons_self a t)
      have hta : a.hash_type < 256 ^ 4 := by
        have hv := ha.1
        simp [hash_type_is_valid] at hv
        norm_num
        omega
      simp only [List.flatMap_cons, List.length_cons, List.append_assoc]
      unfold readInvVects
      rw [readLE_append 4 _ _ hta, bindStep]
      try dsimp only
      rw [if_pos ha.1]
      rw [readBytes_append_of_length 32 _ _ (by simp [hash32_to_bytes, ha.2]),
        bindStep]
      try dsimp only
      rw [hash32_roundtrip _ ha.2, bindStep]
      try dsimp only
      rw [ih (fun x hx => h x (List.mem_cons_of_mem a hx)), bindStep]
      rfl

theorem invBase_roundtrip (m : MessageInvBase) (h : m.wf) :
    MessageInvBase.from_bytes m.bytes = some m := by
  obtain ⟨hn, hl⟩ := h
  unfold MessageInvBase.from_bytes MessageInvBase.bytes
  rw [readVI_append _ _ hn, bindStep]
  try dsimp only
  have hx := readInvVects_append m.inventory [] hl
  rw [List.append_nil] at hx
  rw [hx, bindStep]
  rfl

/-- Field bounds under which a `MessageInv` serializes losslessly. -/
def MessageInv.wf (m : MessageInv) : Prop := MessageInvBase.wf ⟨m.inventory⟩

theorem inv_roundtrip (m : MessageInv) (h : m.wf) :
    MessageInv.from_bytes m.bytes = some m := by
  unfold MessageInv.from_bytes MessageInv.bytes
  rw [invBase_roundtrip _ h]
  rfl

/-- Field bounds under which a `MessageGetData` serializes losslessly. -/
def MessageGetData.wf (m : MessageGetData) : Prop := m.base.wf

theorem getdata_roundtrip (m : MessageGetData) (h : m.wf) :
    MessageGetData.from_bytes m.bytes = some m := by
  unfold MessageGetData.from_bytes MessageGetData.bytes
  rw [invBase_roundtrip _ h]
  rfl

/-- Field bounds under which a `MessageNotFound` serializes losslessly. -/
def MessageNotFound.wf (m : MessageNotFound) : Prop := m.base.wf

theorem notfound_roundtrip (m : MessageNotFound) (h : m.wf) :
    MessageNotFound.from_bytes m.bytes = some m := by
  unfold MessageNotFound.from_bytes MessageNotFound.bytes
  rw [invBase_roundtrip _ h]
  rfl

/-- Field bounds under which a `BlockHeader` serializes losslessly. -/
def BlockHeader.wf (b : BlockHeader) : Prop :=
  b.version < 256 ^ 4 ∧ b.hash_prev_block.length = 32 ∧
  b.hash_merkle_root.length = 32 ∧ b.time < 256 ^ 4 ∧ b.bits < 256 ^ 4 ∧
  b.nonce < 256 ^ 4

theorem blockHeader_bytes_length (b : BlockHeader)
    (h1 : b.hash_prev_block.length = 32) (h2 : b.hash_merkle_root.length = 32) :
    b.bytes.length = 80 := by
  simp [BlockHeader.bytes, hash32_to_bytes, leBytes_length, h1, h2]

theorem blockHeader_roundtrip (b : BlockHeader) (rest : List Nat) (h : b.wf) :
    BlockHeader.from_bytes (b.bytes ++ rest) = some b := by
  obtain ⟨h1, h2, h3, h4, h5, h6⟩ := h
  unfold BlockHeader.from_bytes BlockHeader.bytes
  simp only [List.append_assoc]
  rw [readLE_append 4 _ _ h1, bindStep]
  try dsimp only
  rw [readBytes_append_of_length 32 _ _ (by simp [hash32_to_bytes, h2]),
    bindStep]
  try dsimp only
  rw [hash32_roundtrip _ h2, bindStep]
  try dsimp only
  rw [readBytes_append_of_length 32 _ _ (by simp [hash32_to_bytes, h3]),
    bindStep]
  try dsimp only
  rw [hash32_roundtrip _ h3, bindStep]
  try dsimp only
  rw [readLE_append 4 _ _ h4, bindStep]
  try dsimp only
  rw [readLE_append 4 _ _ h5, bindStep]
  try dsimp only
  rw [readLE_append 4 _ _ h6, bindStep]
  rfl

/-- Field bounds under which a `MessageHeaders` serializes losslessly. -/
def MessageHeaders.wf (m : MessageHeaders) : Prop :=
  m.headers.length < 2 ^ 64 ∧
  ∀ x ∈ m.headers, x.header.wf ∧ x.txn_count < 2 ^ 64

theorem readBlockHeaders_append (l : List MessageBlockHeader) (rest : List Nat)
    (h : ∀ x ∈ l, x.header.wf ∧ x.txn_count < 2 ^ 64) :
    readBlockHeaders l.length
      ((l.flatMap fun x => x.header.bytes ++ VariableInteger.bytes x.txn_count)
        ++ rest) = some (l, rest) := by
  induction l with
  | nil => rfl
  | cons a t ih =>
      have ha := h a (List.mem_cons_self a t)
      have hfa : BlockHeader.from_bytes a.header.bytes = some a.header := by
        have hx := blockHeader_roundtrip a.header [] ha.1
        rwa [List.append_nil] at hx
      simp only [List.flatMap_cons, List.length_cons, List.append_assoc]
      unfold readBlockHeaders
      rw [readBytes_append_of_length BlockHeader.lengthBytes _ _
        (show a.header.bytes.length = BlockHeader.lengthBytes from
          blockHeader_bytes_length _ ha.1.2.1 ha.1.2.2.1), bindStep]
      try dsimp only
      rw [hfa, bindStep]
      try dsimp only
      rw [readVI_append _ _ ha.2, bindStep]
      try dsimp only
      rw [ih (fun x hx => h x (List.mem_cons_of_mem a hx)), bindStep]
      rfl

theorem headers_roundtrip (m : MessageHeaders) (h : m.wf) :
    MessageHeaders.from_bytes m.bytes = some m := by
  obtain ⟨hn, hl⟩ := h
  unfold MessageHeaders.from_bytes MessageHeaders.bytes
  rw [readVI_append _ _ hn, bindStep]
  try dsimp only
  have hx := readBlockHeaders_append m.headers [] hl
  rw [List.append_nil] at hx
  rw [hx, bindStep]
  rfl

/-- Field bounds under which a `TxInput` serializes losslessly. -/
def TxInput.wf (i : TxInput) : Prop :=
  i.tx.length = 32 ∧ i.index < 256 ^ 4 ∧ i.script_sig.length < 2 ^ 64 ∧
  i.sequence < 256 ^ 4

/-- Field bounds under which a `TxOutput` serializes losslessly. -/
def TxOutput.wf (o : TxOutput) : Prop :=
  o.value < 256 ^ 8 ∧ o.script_pub_key.length < 2 ^ 64

/-- Field bounds under which a `Transaction` serializes losslessly. -/
def Transaction.wf (t : Transaction) : Prop :=
  t.version < 256 ^ 4 ∧ t.inputs.length < 2 ^ 64 ∧ (∀ i ∈ t.inputs, i.wf) ∧
  t.outputs.length < 2 ^ 64 ∧ (∀ o ∈ t.outputs, o.wf) ∧ t.lock_time < 256 ^ 4

theorem readTxInputs_append (l : List TxInput) (rest : List Nat)
    (h : ∀ i ∈ l, i.wf) :
    readTxInputs l.length (l.flatMap TxInput.bytes ++ rest) = some (l, rest) := by
  induction l with
  | nil => rfl
  | cons a t ih =>
      have ha := h a (List.mem_cons_self a t)
      simp only [List.flatMap_cons, List.append_assoc, List.length_cons,
        TxInput.bytes]
      unfold readTxInputs
      rw [readBytes_append_of_length 32 _ _ ha.1, bindStep]
      try dsimp only
      rw [readLE_append 4 _ _ ha.2.1, bindStep]
      try dsimp only
      rw [readVI_append _ _ ha.2.2.1, bindStep]
      try dsimp only
      rw [readBytes_append, bindStep]
      try dsimp only
      rw [readLE_append 4 _ _ ha.2.2.2, bindStep]
      try dsimp only
      rw [ih (fun x hx => h x (List.mem_cons_of_mem a hx)), bindStep]
      rfl

theorem readTxOutputs_append (l : List TxOutput) (rest : List Nat)
    (h : ∀ o ∈ l, o.wf) :
    readTxOutputs l.length (l.flatMap TxOutput.bytes ++ rest) = some (l, rest) := by
  induction l with
  | nil => rfl
  | cons a t ih =>
      have ha := h a (List.mem_cons_self a t)
      simp only [List.flatMap_cons, List.append_assoc, List.length_cons,
        TxOutput.bytes]
      unfold readTxOutputs
      rw [readLE_append 8 _ _ ha.1, bindStep]
      try dsimp only
      rw [readVI_append _ _ ha.2, bindStep]
      try dsimp only
      rw [readBytes_append, bindStep]
      try dsimp only
      rw [ih (fun x hx => h x (List.mem_cons_of_mem a hx)), bindStep]
      rfl

theorem transaction_roundtrip (t : Transaction) (rest : List Nat) (h : t.wf) :
    Transaction.from_bytes (t.bytes ++ rest) = some (t, rest) := by
  obtain ⟨h1, h2, h3, h4, h5, h6⟩ := h
  unfold Transaction.from_bytes Transaction.bytes
  simp only [List.append_assoc]
  rw [readLE_append 4 _ _ h1, bindStep]
  try dsimp only
  rw [readVI_append _ _ h2, bindStep]
  try dsimp only
  rw [readTxInputs_append _ _ h3, bindStep]
  try dsimp only
  rw [readVI_append _ _ h4, bindStep]
  try dsimp only
  rw [readTxOutputs_append _ _ h5, bindStep]
  try dsimp only
  rw [readLE_append 4 _ _ h6, bindStep]
  rfl

theorem readTxs_append (l : List Transaction) (rest : List Nat)
    (h : ∀ t ∈ l, t.wf) :
    readTxs l.length (l.flatMap Transaction.bytes ++ rest) = some (l, rest) := by
  induction l with
  | nil => rfl
  | cons a t ih =>
      simp only [List.flatMap_cons, List.append_assoc, List.length_cons]
      unfold readTxs
      rw [transaction_roundtrip a _ (h a (List.mem_cons_self a t)), bindStep]
      try dsimp only
      rw [ih (fun x hx => h x (List.mem_cons_of_mem a hx)), bindStep]
      rfl

/-- Field bounds under which a `Block` serializes losslessly. -/
def Block.wf (b : Block) : Prop :=
  b.header.wf ∧ b.transactions.length < 2 ^ 64 ∧ ∀ t ∈ b.transactions, t.wf

theorem block_roundtrip (b : Block) (h : b.wf) :
    Block.from_bytes b.bytes = some b := by
  obtain ⟨h1, h2, h3⟩ := h
  have hfa : BlockHeader.from_bytes b.header.bytes = some b.header := by
    have hx := blockHeader_roundtrip b.header [] h1
    rwa [List.append_nil] at hx
  unfold Block.from_bytes Block.bytes
  simp only [List.append_assoc]
  rw [readBytes_append_of_length BlockHeader.lengthBytes _ _
    (show b.header.bytes.length = BlockHeader.lengthBytes from
      blockHeader_bytes_length _ h1.2.1 h1.2.2.1), bindStep]
  try dsimp only
  rw [hfa, bindStep]
  try dsimp only
  rw [readVI_append _ _ h2, bindStep]
  try dsimp only
  have hx := readTxs_append b.transactions [] h3
  rw [List.append_nil] at hx
  rw [hx, bindStep]
  rfl

/-- Field bounds under which a `MessageBlock` serializes losslessly. -/
def MessageBlock.wf (m : MessageBlock) : Prop := m.block.wf

theorem msgblock_roundtrip (m : MessageBlock) (h : m.wf) :
    MessageBlock.from_bytes m.bytes = some m := by
  unfold MessageBlock.from_bytes MessageBlock.bytes
  rw [block_roundtrip _ h]
  rfl

theorem flatMap_length_const {α : Type} (f : α → List Nat) (k : Nat)
    (l : List α) (h : ∀ a ∈ l, (f a).length = k) :
    (l.flatMap f).length = l.length * k := by
  induction l with
  | nil => simp
  | cons a t ih =>
      simp only [List.flatMap_cons, List.length_append, List.length_cons]
      rw [h a (List.mem_cons_self a t),
        ih (fun x hx => h x (List.mem_cons_of_mem a hx))]
      ring

theorem flatMap_length_sum {α : Type} (f : α → List Nat) (l : List α) :
    (l.flatMap f).length = (l.map fun a => (f a).length).sum := by
  induction l with
  | nil => rfl
  | cons a t ih => simp [List.flatMap_cons, ih]

theorem version_length_eq (m : MessageVersion) (h : m.wf)
    (hb : m.bytes.length < 2 ^ 32) : m.lengthN = m.bytes.length := by
  obtain ⟨h1, h2, h3, h4, h5, h6, h7, h8, h9⟩ := h
  have hs : 4 + 8 + 8 + 26 + 26 + 8 +
      (VariableInteger.bytes m.user_agent.length).length +
      m.user_agent.length + 4 + 1 = m.bytes.length := by
    simp [MessageVersion.bytes, leBytes_length,
      netAddrVersion_bytes_length _ h4.2.1, netAddrVersion_bytes_length _ h5.2.1]
    omega
  unfold MessageVersion.lengthN
  rw [hs, Nat.mod_eq_of_lt hb]

theorem addr_length_eq (m : MessageAddr) (h : m.wf)
    (hb : m.bytes.length < 2 ^ 32) : m.lengthN = m.bytes.length := by
  obtain ⟨hn, hl⟩ := h
  have hf : (m.addr_list.flatMap NetAddr.bytes).length =
      m.addr_list.length * 30 :=
    flatMap_length_const _ 30 _ (fun a ha => netAddr_bytes_length a (hl a ha).2.2.1)
  have hs : (VariableInteger.bytes m.addr_list.length).length +
      m.addr_list.length * NET_ADDR_SIZE = m.bytes.length := by
    simp [MessageAddr.bytes, hf, NET_ADDR_SIZE, NET_ADDR_VERSION_SIZE]
  unfold MessageAddr.lengthN
  rw [hs, Nat.mod_eq_of_lt hb]

theorem getheaders_length_eq (m : MessageGetHeaders) (h : m.wf)
    (hb : m.bytes.length < 2 ^ 32) : m.lengthN = m.bytes.length := by
  obtain ⟨h1, h2, h3, h4⟩ := h
  have hf : (m.block_locator_hashes.flatMap id).length =
      m.block_locator_hashes.length * 32 :=
    flatMap_length_const id 32 _ (fun a ha => h3 a ha)
  have hs : 4 + (VariableInteger.bytes m.block_locator_hashes.length).length +
      32 * m.block_locator_hashes.length + 32 = m.bytes.length := by
    unfold MessageGetHeaders.bytes
    rw [List.length_append, List.length_append, List.length_append,
      leBytes_length, hf, h4]
    omega
  unfold MessageGetHeaders.lengthN
  rw [hs, Nat.mod_eq_of_lt hb]

theorem invBase_length_eq (m : MessageInvBase) (h : m.wf)
    (hb : m.bytes.length < 2 ^ 32) : m.lengthN = m.bytes.length := by
  obtain ⟨hn, hl⟩ := h
  have hf : ((m.inventory.flatMap fun v =>
      leBytes 4 v.hash_type ++ hash32_to_bytes v.hash)).length =
      m.inventory.length * 36 :=
    flatMap_length_const _ 36 _ (fun v hv => by
      simp [hash32_to_bytes, leBytes_length, (hl v hv).2])
  have hs : (VariableInteger.bytes m.inventory.length).length +
      m.inventory.length * (4 + 32) = m.bytes.length := by
    simp [MessageInvBase.bytes, hf]
  unfold MessageInvBase.lengthN
  rw [hs, Nat.mod_eq_of_lt hb]

theorem headers_length_eq (m : MessageHeaders) (h : m.wf)
    (hb : m.bytes.length < 2 ^ 32) : m.lengthN = m.bytes.length := by
  obtain ⟨hn, hl⟩ := h
  have hs : (VariableInteger.bytes m.headers.length).length +
      (m.headers.map fun h => BlockHeader.lengthBytes +
        (VariableInteger.bytes h.txn_count).length).sum = m.bytes.length := by
    have hm : (m.headers.map fun a =>
        (a.header.bytes ++ VariableInteger.bytes a.txn_count).length) =
        m.headers.map fun h => BlockHeader.lengthBytes +
          (VariableInteger.bytes h.txn_count).length := by
      apply List.map_congr_left
      intro x hx
      rw [List.length_append,
        blockHeader_bytes_length x.header (hl x hx).1.2.1 (hl x hx).1.2.2.1]
      rfl
    unfold MessageHeaders.bytes
    rw [List.length_append, flatMap_length_sum, hm]
  unfold MessageHeaders.lengthN
  rw [hs, Nat.mod_eq_of_lt hb]

theorem msgblock_length_eq (m : MessageBlock)
    (hb : m.block.bytes.length < 2 ^ 32) :
    m.lengthN = some m.block.bytes.length := by
  unfold MessageBlock.lengthN
  rw [if_pos hb]

theorem findIdx_zero_aux (nm rest : List Nat) (i : Nat)
    (hz : ∀ b ∈ nm, b ≠ 0) :
    List.findIdx? (fun b => b = 0) (nm ++ 0 :: rest) i = some (i + nm.length) := by
  induction nm generalizing i with
  | nil => simp [List.findIdx?]
  | cons a t ih =>
      have ha : a ≠ 0 := hz a (List.mem_cons_self a t)
      rw [List.cons_append]
      rw [show List.findIdx? (fun b => b = 0) (a :: (t ++ 0 :: rest)) i =
        if (a = 0 : Bool) = true then some i
        else List.findIdx? (fun b => b = 0) (t ++ 0 :: rest) (i + 1) from rfl]
      rw [if_neg (by simp [ha])]
      rw [ih (i + 1) (fun x hx => hz x (List.mem_cons_of_mem a hx))]
      rw [List.length_cons]
      congr 1
      omega

theorem padName_eq (nm : List Nat) (h : nm.length < 12) :
    padName nm = nm ++ 0 :: List.replicate (11 - nm.length) 0 := by
  unfold padName
  congr 1
  rw [show 12 - nm.length = (11 - nm.length) + 1 from by omega,
    List.replicate_succ]

theorem padName_length (nm : List Nat) (h : nm.length ≤ 12) :
    (padName nm).length = 12 := by
  simp [padName]
  omega

theorem padName_firstZero (nm : List Nat) (h : nm.length < 12)
    (hz : ∀ b ∈ nm, b ≠ 0) :
    ((padName nm).findIdx? fun b => b = 0).getD 0 = nm.length := by
  rw [padName_eq nm h, findIdx_zero_aux nm _ 0 hz]
  simp

theorem padName_take (nm : List Nat) : (padName nm).take nm.length = nm := by
  unfold padName
  exact List.take_left nm _

/-- Running `parse` on a well-formed envelope reduces it to the
command-name dispatch on the payload, and the length field is the LE32
payload length. -/
theorem parse_envelope (C : Crypto) (magic : Nat) (nm payload bs : List Nat)
    (hbs : bs = leBytes 4 magic ++ (padName nm ++ (leBytes 4 payload.length ++
      ((hash32 payload).take 4 ++ payload))))
    (hmagic : magic = MAGIC_MAIN ∨ magic = MAGIC_TESTNET ∨ magic = MAGIC_TESTNET3)
    (hnm : nm.length < 12) (hnz : ∀ b ∈ nm, b ≠ 0)
    (hutf : utf8Valid nm = true) (hpl : payload.length < 2 ^ 32) :
    parse C bs = parseDispatch C magic nm payload bs.length ∧
    (bs.drop 16).take 4 = leBytes 4 (bs.length - 24) := by
  have hA : (leBytes 4 magic).length = 4 := leBytes_length 4 magic
  have hN : (padName nm).length = 12 := padName_length nm (by omega)
  have hL : (leBytes 4 payload.length).length = 4 := leBytes_length 4 _
  have hK : ((hash32 payload).take 4).length = 4 := by
    simp [List.length_take, hash32_length]
  have h4 : bs.take 4 = leBytes 4 magic := by
    rw [hbs, ← hA]
    exact List.take_left _ _
  have hd4 : bs.drop 4 = padName nm ++ (leBytes 4 payload.length ++
      ((hash32 payload).take 4 ++ payload)) := by
    rw [hbs, ← hA]
    exact List.drop_left _ _
  have hd16 : bs.drop 16 = leBytes 4 payload.length ++
      ((hash32 payload).take 4 ++ payload) := by
    have h1 : bs.drop 16 = (bs.drop 4).drop 12 := by
      rw [List.drop_drop]
    rw [h1, hd4, ← hN]
    exact List.drop_left _ _
  have hd20 : bs.drop 20 = (hash32 payload).take 4 ++ payload := by
    have h1 : bs.drop 20 = (bs.drop 16).drop 4 := by
      rw [List.drop_drop]
    rw [h1, hd16, ← hL]
    exact List.drop_left _ _
  have hd24 : bs.drop 24 = payload := by
    have h1 : bs.drop 24 = (bs.drop 20).drop 4 := by
      rw [List.drop_drop]
    rw [h1, hd20, ← hK]
    exact List.drop_left _ _
  have ht16 : (bs.drop 16).take 4 = leBytes 4 payload.length := by
    rw [hd16, ← hL]
    exact List.take_left _ _
  have ht20 : (bs.drop 20).take 4 = (hash32 payload).take 4 := by
    rw [hd20, ← hK]
    exact List.take_left _ _
  have hname : (bs.drop 4).take 12 = padName nm := by
    rw [hd4, ← hN]
    exact List.take_left _ _
  have hlen : bs.length = 24 + payload.length := by
    rw [hbs]
    simp only [List.length_append, hA, hN, hL, hK]
    omega
  have hfmagic : fromLE (bs.take 4) = magic := by
    rw [h4, fromLE_leBytes]
    rcases hmagic with h | h | h <;> rw [h] <;>
      norm_num [MAGIC_MAIN, MAGIC_TESTNET, MAGIC_TESTNET3]
  have hflen : fromLE ((bs.drop 16).take 4) = payload.length := by
    rw [ht16, fromLE_leBytes]
    apply Nat.mod_eq_of_lt
    norm_num
    omega
  have hmem : (magic = MAGIC_MAIN || magic = MAGIC_TESTNET ||
      magic = MAGIC_TESTNET3) = true := by
    rcases hmagic with h | h | h <;> simp [h]
  have hc4 : check_size bs 4 = true := by
    unfold check_size
    rw [hlen]
    simp only [decide_eq_true_eq]
    omega
  have hc16 : check_size bs 16 = true := by
    unfold check_size
    rw [hlen]
    simp only [decide_eq_true_eq]
    omega
  have hc20 : check_size bs 20 = true := by
    unfold check_size
    rw [hlen]
    simp only [decide_eq_true_eq]
    omega
  have hc24 : check_size bs 24 = true := by
    unfold check_size
    rw [hlen]
    simp only [decide_eq_true_eq]
    omega
  have hc24p : check_size bs (24 + payload.length) = true := by
    unfold check_size
    rw [hlen]
    simp only [decide_eq_true_eq]
    omega
  refine ⟨?_, by rw [ht16, hlen]; norm_num⟩
  unfold parse
  dsimp only
  rw [hfmagic, hmem, hname, padName_firstZero nm hnm hnz, padName_take nm,
    hutf, hflen, hd24, List.take_length, ht20, hc4, hc16, hc20, hc24, hc24p]
  simp only [Bool.not_true, Bool.false_eq_true, if_false, ne_eq,
    not_true_eq_false, ite_false]
  rw [hlen]

/-- Well-formedness of a full message: the payload's field bounds, plus
(for the variable-size payloads) a serialized size below `2^32` so the
`as u32` length cast is lossless.  The alert variant is excluded
(`Message::<MessageAlert>::bytes` panics in `length()`), and so is
getblocks (outside the round-trip claim's recognized set; its `length()`
counts locator hashes at 4 bytes instead of 32). -/
def wfMessage : MessageType → Prop
  | .version _ c => c.wf ∧ c.bytes.length < 2 ^ 32
  | .alert _ _ => False
  | .verack _ _ => True
  | .addr _ c => c.wf ∧ c.bytes.length < 2 ^ 32
  | .getaddr _ _ => True
  | .ping _ c => c.wf
  | .pong _ c => c.wf
  | .getheaders _ c => c.wf ∧ c.bytes.length < 2 ^ 32
  | .feefilter _ c => c.wf
  | .sendheaders _ _ => True
  | .inv _ c => c.wf ∧ c.bytes.length < 2 ^ 32
  | .getdata _ c => c.wf ∧ c.bytes.length < 2 ^ 32
  | .getblocks _ _ => False
  | .notfound _ c => c.wf ∧ c.bytes.length < 2 ^ 32
  | .headers _ c => c.wf ∧ c.bytes.length < 2 ^ 32
  | .block _ c => c.wf ∧ c.bytes.length < 2 ^ 32

/-- C3.  Amended message round-trip: for every well-formed message of
the recognized command types other than alert (whose serialization is
undefined: `MessageAlert::length()` panics) built with an accepted
magic, `parse` applied to `Message::bytes` returns `Ok` with the same
message and a consumed count equal to the serialized length, and the
envelope's payload-length u32 field equals the byte length of the
payload after the checksum. -/
theorem C3_message_roundtrip (C : Crypto) (m : MessageType) (bs : List Nat)
    (hwf : wfMessage m)
    (hmagic : magicOf m = MAGIC_MAIN ∨ magicOf m = MAGIC_TESTNET ∨
      magicOf m = MAGIC_TESTNET3)
    (hmb : messageBytes m = some bs) :
    parse C bs = some (.ok (m, bs.length)) ∧
    (bs.drop 16).take 4 = leBytes 4 (bs.length - 24) := by
  cases m with
  | version magic c =>
      obtain ⟨hw, hb⟩ := hwf
      have hle : c.lengthN = (MessageVersion.bytes c).length :=
        version_length_eq c hw hb
      simp only [messageBytes, commandPayload, commandLength, magicOf, rawName,
        bindStep, Option.pure_def, hle] at hmb
      have hbs := (Option.some.inj hmb).symm
      have hbs2 : bs = leBytes 4 magic ++
          (padName [118, 101, 114, 115, 105, 111, 110] ++
            (leBytes 4 (MessageVersion.bytes c).length ++
              ((hash32 (MessageVersion.bytes c)).take 4 ++
                MessageVersion.bytes c))) := by
        rw [hbs]
        simp only [List.append_assoc]
      obtain ⟨hp, hl⟩ := parse_envelope C magic _ (MessageVersion.bytes c) bs
        hbs2 hmagic (by norm_num) (by decide) (by decide) hb
      refine ⟨?_, hl⟩
      rw [hp]
      unfold parseDispatch
      rw [if_pos rfl, version_roundtrip c hw]
  | alert magic c => exact hwf.elim
  | verack magic c =>
      simp only [messageBytes, commandPayload, commandLength, magicOf, rawName,
        bindStep, Option.pure_def] at hmb
      have hbs := (Option.some.inj hmb).symm
      have hbs2 : bs = leBytes 4 magic ++
          (padName [118, 101, 114, 97, 99, 107] ++
            (leBytes 4 (MessageVerack.bytes c).length ++
              ((hash32 (MessageVerack.bytes c)).take 4 ++
                MessageVerack.bytes c))) := by
        rw [hbs, show (MessageVerack.bytes c).length = 0 from rfl]
        simp only [List.append_assoc]
      obtain ⟨hp, hl⟩ := parse_envelope C magic _ (MessageVerack.bytes c) bs
        hbs2 hmagic (by norm_num) (by decide) (by decide)
        (by norm_num [MessageVerack.bytes])
      refine ⟨?_, hl⟩
      rw [hp]
      unfold parseDispatch
      rw [if_neg (by decide), if_neg (by decide), if_pos rfl,
        verack_roundtrip c]
  | addr magic c =>
      obtain ⟨hw, hb⟩ := hwf
      have hle : c.lengthN = (MessageAddr.bytes c).length :=
        addr_length_eq c hw hb
      simp only [messageBytes, commandPayload, commandLength, magicOf, rawName,
        bindStep, Option.pure_def, hle] at hmb
      have hbs := (Option.some.inj hmb).symm
      have hbs2 : bs = leBytes 4 magic ++ (padName [97, 100, 100, 114] ++
          (leBytes 4 (MessageAddr.bytes c).length ++
            ((hash32 (MessageAddr.bytes c)).take 4 ++ MessageAddr.bytes c))) := by
        rw [hbs]
        simp only [List.append_assoc]
      obtain ⟨hp, hl⟩ := parse_envelope C magic _ (MessageAddr.bytes c) bs
        hbs2 hmagic (by norm_num) (by decide) (by decide) hb
      refine ⟨?_, hl⟩
      rw [hp]
      unfold parseDispatch
      rw [if_neg (by decide), if_neg (by decide), if_neg (by decide),
        if_neg (by decide), if_pos rfl, addr_roundtrip c hw]
  | getaddr magic c =>
      simp only [messageBytes, commandPayload, commandLength, magicOf, rawName,
        bindStep, Option.pure_def] at hmb
      have hbs := (Option.some.inj hmb).symm
      have hbs2 : bs = leBytes 4 magic ++
          (padName [103, 101, 116, 97, 100, 100, 114] ++
            (leBytes 4 (MessageGetAddr.bytes c).length ++
              ((hash32 (MessageGetAddr.bytes c)).take 4 ++
                MessageGetAddr.bytes c))) := by
        rw [hbs, show (MessageGetAddr.bytes c).length = 0 from rfl]
        simp only [List.append_assoc]
      obtain ⟨hp, hl⟩ := parse_envelope C magic _ (MessageGetAddr.bytes c) bs
        hbs2 hmagic (by norm_num) (by decide) (by decide)
        (by norm_num [MessageGetAddr.bytes])
      refine ⟨?_, hl⟩
      rw [hp]
      unfold parseDispatch
      rw [if_neg (by decide), if_neg (by decide), if_neg (by decide),
        if_pos rfl, getaddr_roundtrip c]
  | ping magic c =>
      have hl8 : (MessagePing.bytes c).length = 8 := leBytes_length 8 c.nonce
      simp only [messageBytes, commandPayload, commandLength, magicOf, rawName,
        bindStep, Option.pure_def] at hmb
      have hbs := (Option.some.inj hmb).symm
      have hbs2 : bs = leBytes 4 magic ++ (padName [112, 105, 110, 103] ++
          (leBytes 4 (MessagePing.bytes c).length ++
            ((hash32 (MessagePing.bytes c)).take 4 ++ MessagePing.bytes c))) := by
        rw [hbs, hl8]
        simp only [List.append_assoc]
      obtain ⟨hp, hl⟩ := parse_envelope C magic _ (MessagePing.bytes c) bs
        hbs2 hmagic (by norm_num) (by decide) (by decide) (by rw [hl8]; norm_num)
      refine ⟨?_, hl⟩
      rw [hp]
      unfold parseDispatch
      rw [if_neg (by decide), if_neg (by decide), if_neg (by decide),
        if_neg (by decide), if_neg (by decide), if_pos rfl,
        ping_roundtrip c hwf]
  | pong magic c =>
      have hl8 : (MessagePong.bytes c).length = 8 := leBytes_length 8 c.nonce
      simp only [messageBytes, commandPayload, commandLength, magicOf, rawName,
        bindStep, Option.pure_def] at hmb
      have hbs := (Option.some.inj hmb).symm
      have hbs2 : bs = leBytes 4 magic ++ (padName [112, 111, 110, 103] ++
          (leBytes 4 (MessagePong.bytes c).length ++
            ((hash32 (MessagePong.bytes c)).take 4 ++ MessagePong.bytes c))) := by
        rw [hbs, hl8]
        simp only [List.append_assoc]
      obtain ⟨hp, hl⟩ := parse_envelope C magic _ (MessagePong.bytes c) bs
        hbs2 hmagic (by norm_num) (by decide) (by decide) (by rw [hl8]; norm_num)
      refine ⟨?_, hl⟩
      rw [hp]
      unfold parseDispatch
      rw [if_neg (by decide), if_neg (by decide), if_neg (by decide),
        if_neg (by decide), if_neg (by decide), if_neg (by decide),
        if_pos rfl, pong_roundtrip c hwf]
  | getheaders magic c =>
      obtain ⟨hw, hb⟩ := hwf
      have hle : c.lengthN = (MessageGetHeaders.bytes c).length :=
        getheaders_length_eq c hw hb
      simp only [messageBytes, commandPayload, commandLength, magicOf, rawName,
        bindStep, Option.pure_def, hle] at hmb
      have hbs := (Option.some.inj hmb).symm
      have hbs2 : bs = leBytes 4 magic ++
          (padName [103, 101, 116, 104, 101, 97, 100, 101, 114, 115] ++
            (leBytes 4 (MessageGetHeaders.bytes c).length ++
              ((hash32 (MessageGetHeaders.bytes c)).take 4 ++
                MessageGetHeaders.bytes c))) := by
        rw [hbs]
        simp only [List.append_assoc]
      obtain ⟨hp, hl⟩ := parse_envelope C magic _ (MessageGetHeaders.bytes c) bs
        hbs2 hmagic (by norm_num) (by decide) (by decide) hb
      refine ⟨?_, hl⟩
      rw [hp]
      unfold parseDispatch
      rw [if_neg (by decide), if_neg (by decide), if_neg (by decide),
        if_neg (by decide), if_neg (by decide), if_neg (by decide),
        if_neg (by decide), if_pos rfl, getheaders_roundtrip c hw]
  | feefilter magic c =>
      have hl8 : (MessageFeeFilter.bytes c).length = 8 :=
        leBytes_length 8 c.feerate
      simp only [messageBytes, commandPayload, commandLength, magicOf, rawName,
        bindStep, Option.pure_def] at hmb
      have hbs := (Option.some.inj hmb).symm
      have hbs2 : bs = leBytes 4 magic ++
          (padName [102, 101, 101, 102, 105, 108, 116, 101, 114] ++
            (leBytes 4 (MessageFeeFilter.bytes c).length ++
              ((hash32 (MessageFeeFilter.bytes c)).take 4 ++
                MessageFeeFilter.bytes c))) := by
        rw [hbs, hl8]
        simp only [List.append_assoc]
      obtain ⟨hp, hl⟩ := parse_envelope C magic _ (MessageFeeFilter.bytes c) bs
        hbs2 hmagic (by norm_num) (by decide) (by decide) (by rw [hl8]; norm_num)
      refine ⟨?_, hl⟩
      rw [hp]
      unfold parseDispatch
      rw [if_neg (by decide), if_neg (by decide), if_neg (by decide),
        if_neg (by decide), if_neg (by decide), if_neg (by decide),
        if_neg (by decide), if_neg (by decide), if_pos rfl,
        feefilter_roundtrip c hwf]
  | sendheaders magic c =>
      simp only [messageBytes, commandPayload, commandLength, magicOf, rawName,
        bindStep, Option.pure_def] at hmb
      have hbs := (Option.some.inj hmb).symm
      have hbs2 : bs = leBytes 4 magic ++
          (padName [115, 101, 110, 100, 104, 101, 97, 100, 101, 114, 115] ++
            (leBytes 4 (MessageSendHeaders.bytes c).length ++
              ((hash32 (MessageSendHeaders.bytes c)).take 4 ++
                MessageSendHeaders.bytes c))) := by
        rw [hbs, show (MessageSendHeaders.bytes c).length = 0 from rfl]
        simp only [List.append_assoc]
      obtain ⟨hp, hl⟩ := parse_envelope C magic _ (MessageSendHeaders.bytes c) bs
        hbs2 hmagic (by norm_num) (by decide) (by decide)
        (by norm_num [MessageSendHeaders.bytes])
      refine ⟨?_, hl⟩
      rw [hp]
      unfold parseDispatch
      rw [if_neg (by decide), if_neg (by decide), if_neg (by decide),
        if_neg (by decide), if_neg (by decide), if_neg (by decide),
        if_neg (by decide), if_neg (by decide), if_neg (by decide),
        if_pos rfl, sendheaders_roundtrip c]
  | inv magic c =>
      obtain ⟨hw, hb⟩ := hwf
      have hle : MessageInvBase.lengthN ⟨c.inventory⟩ =
          (MessageInv.bytes c).length :=
        invBase_length_eq ⟨c.inventory⟩ hw hb
      simp only [messageBytes, commandPayload, commandLength, magicOf, rawName,
        bindStep, Option.pure_def, hle] at hmb
      have hbs := (Option.some.inj hmb).symm
      have hbs2 : bs = leBytes 4 magic ++ (padName [105, 110, 118] ++
          (leBytes 4 (MessageInv.bytes c).length ++
            ((hash32 (MessageInv.bytes c)).take 4 ++ MessageInv.bytes c))) := by
        rw [hbs]
        simp only [List.append_assoc]
      obtain ⟨hp, hl⟩ := parse_envelope C magic _ (MessageInv.bytes c) bs
        hbs2 hmagic (by norm_num) (by decide) (by decide) hb
      refine ⟨?_, hl⟩
      rw [hp]
      unfold parseDispatch
      rw [if_neg (by decide), if_neg (by decide), if_neg (by decide),
        if_neg (by decide), if_neg (by decide), if_neg (by decide),
        if_neg (by decide), if_neg (by decide), if_neg (by decide),
        if_neg (by decide), if_pos rfl, inv_roundtrip c hw]
  | getdata magic c =>
      obtain ⟨hw, hb⟩ := hwf
      have hle : c.base.lengthN = (MessageGetData.bytes c).length :=
        invBase_length_eq c.base hw hb
      simp only [messageBytes, commandPayload, commandLength, magicOf, rawName,
        bindStep, Option.pure_def, hle] at hmb
      have hbs := (Option.some.inj hmb).symm
      have hbs2 : bs = leBytes 4 magic ++
          (padName [103, 101, 116, 100, 97, 116, 97] ++
            (leBytes 4 (MessageGetData.bytes c).length ++
              ((hash32 (MessageGetData.bytes c)).take 4 ++
                MessageGetData.bytes c))) := by
        rw [hbs]
        simp only [List.append_assoc]
      obtain ⟨hp, hl⟩ := parse_envelope C magic _ (MessageGetData.bytes c) bs
        hbs2 hmagic (by norm_num) (by decide) (by decide) hb
      refine ⟨?_, hl⟩
      rw [hp]
      unfold parseDispatch
      rw [if_neg (by decide), if_neg (by decide), if_neg (by decide),
        if_neg (by decide), if_neg (by decide), if_neg (by decide),
        if_neg (by decide), if_neg (by decide), if_neg (by decide),
        if_neg (by decide), if_neg (by decide), if_neg (by decide),
        if_pos rfl, getdata_roundtrip c hw]
  | getblocks magic c => exact hwf.elim
  | notfound magic c =>
      obtain ⟨hw, hb⟩ := hwf
      have hle : c.base.lengthN = (MessageNotFound.bytes c).length :=
        invBase_length_eq c.base hw hb
      simp only [messageBytes, commandPayload, commandLength, magicOf, rawName,
        bindStep, Option.pure_def, hle] at hmb
      have hbs := (Option.some.inj hmb).symm
      have hbs2 : bs = leBytes 4 magic ++
          (padName [110, 111, 116, 102, 111, 117, 110, 100] ++
            (leBytes 4 (MessageNotFound.bytes c).length ++
              ((hash32 (MessageNotFound.bytes c)).take 4 ++
                MessageNotFound.bytes c))) := by
        rw [hbs]
        simp only [List.append_assoc]
      obtain ⟨hp, hl⟩ := parse_envelope C magic _ (MessageNotFound.bytes c) bs
        hbs2 hmagic (by norm_num) (by decide) (by decide) hb
      refine ⟨?_, hl⟩
      rw [hp]
      unfold parseDispatch
      rw [if_neg (by decide), if_neg (by decide), if_neg (by decide),
        if_neg (by decide), if_neg (by decide), if_neg (by decide),
        if_neg (by decide), if_neg (by decide), if_neg (by decide),
        if_neg (by decide), if_neg (by decide), if_neg (by decide),
        if_neg (by decide), if_pos rfl, notfound_roundtrip c hw]
  | headers magic c =>
      obtain ⟨hw, hb⟩ := hwf
      have hle : c.lengthN = (MessageHeaders.bytes c).length :=
        headers_length_eq c hw hb
      simp only [messageBytes, commandPayload, commandLength, magicOf, rawName,
        bindStep, Option.pure_def, hle] at hmb
      have hbs := (Option.some.inj hmb).symm
      have hbs2 : bs = leBytes 4 magic ++
          (padName [104, 101, 97, 100, 101, 114, 115] ++
            (leBytes 4 (MessageHeaders.bytes c).length ++
              ((hash32 (MessageHeaders.bytes c)).take 4 ++
                MessageHeaders.bytes c))) := by
        rw [hbs]
        simp only [List.append_assoc]
      obtain ⟨hp, hl⟩ := parse_envelope C magic _ (MessageHeaders.bytes c) bs
        hbs2 hmagic (by norm_num) (by decide) (by decide) hb
      refine ⟨?_, hl⟩
      rw [hp]
      unfold parseDispatch
      rw [if_neg (by decide), if_neg (by decide), if_neg (by decide),
        if_neg (by decide), if_neg (by decide), if_neg (by decide),
        if_neg (by decide), if_neg (by decide), if_neg (by decide),
        if_neg (by decide), if_neg (by decide), if_neg (by decide),
        if_neg (by decide), if_neg (by decide), if_pos rfl,
        headers_roundtrip c hw]
  | block magic c =>
      obtain ⟨hw, hb⟩ := hwf
      have hle : c.lengthN = some (MessageBlock.bytes c).length :=
        msgblock_length_eq c hb
      simp only [messageBytes, commandPayload, commandLength, magicOf, rawName,
        bindStep, Option.pure_def, hle] at hmb
      have hbs := (Option.some.inj hmb).symm
      have hbs2 : bs = leBytes 4 magic ++ (padName [98, 108, 111, 99, 107] ++
          (leBytes 4 (MessageBlock.bytes c).length ++
            ((hash32 (MessageBlock.bytes c)).take 4 ++
              MessageBlock.bytes c))) := by
        rw [hbs]
        simp only [List.append_assoc]
      obtain ⟨hp, hl⟩ := parse_envelope C magic _ (MessageBlock.bytes c) bs
        hbs2 hmagic (by norm_num) (by decide) (by decide) hb
      refine ⟨?_, hl⟩
      rw [hp]
      unfold parseDispatch
      rw [if_neg (by decide), if_neg (by decide), if_neg (by decide),
        if_neg (by decide), if_neg (by decide), if_neg (by decide),
        if_neg (by decide), if_neg (by decide), if_neg (by decide),
        if_neg (by decide), if_neg (by decide), if_neg (by decide),
        if_neg (by decide), if_neg (by decide), if_neg (by decide),
        msgblock_roundtrip c hw, if_pos rfl]

/-- An arbitrary concrete alert payload. -/
def c3Alert : MessageAlert :=
  ⟨1, 0, 0, 0, 0, [], 0, 0, [], 0, [], [], [], false⟩

/-- C3 counterexample: serializing an alert message is undefined —
`MessageAlert::length()` is `panic!("Not implemented")`, so
`Message::<MessageAlert>::bytes()` panics and `parse(serialize(m))`
has no value for the alert member of the claim's recognized set. -/
theorem C3_alert_bytes_undefined :
    messageBytes (.alert MAGIC_MAIN c3Alert) = none := rfl

/-- A crypto oracle for the C3 witness (the ping path never consults it). -/
def c3Crypto : Crypto := ⟨fun _ => [], fun _ _ _ => some false⟩

def c3Ping : MessagePing := ⟨7⟩

/-- The serialized `ping(7)` message on the main network. -/
def c3Bs : List Nat :=
  [249, 190, 180, 217, 112, 105, 110, 103, 0, 0, 0, 0, 0, 0, 0, 0,
   8, 0, 0, 0, 140, 130, 12, 128, 7, 0, 0, 0, 0, 0, 0, 0]

set_option maxHeartbeats 1000000 in
theorem C3_message_roundtrip_witness :
    messageBytes (.ping MAGIC_MAIN c3Ping) = some c3Bs ∧
    parse c3Crypto c3Bs =
      some (.ok (.ping MAGIC_MAIN c3Ping, c3Bs.length)) ∧
    (c3Bs.drop 16).take 4 = leBytes 4 (c3Bs.length - 24) := by
  have h := C3_message_roundtrip c3Crypto (.ping MAGIC_MAIN c3Ping) c3Bs
    (show c3Ping.nonce < 256 ^ 8 by decide) (Or.inl rfl) (by decide)
  exact ⟨by decide, h.1, h.2⟩

set_option maxHeartbeats 1000000 in
theorem parseDispatch_not_invalid_magic (C : Crypto) (magic : Nat)
    (nm payload : List Nat) (consumed : Nat) :
    parseDispatch C magic nm payload consumed ≠
      some (.error .invalidMagicBytes) := by
  intro hE
  unfold parseDispatch at hE
  by_cases h1 : nm = [118, 101, 114, 115, 105, 111, 110]
  · rw [if_pos h1] at hE
    rcases hx : MessageVersion.from_bytes payload with _ | c <;>
      rw [hx] at hE <;> simp at hE
  rw [if_neg h1] at hE
  by_cases h2 : nm = [97, 108, 101, 114, 116]
  · rw [if_pos h2] at hE
    rcases hx : MessageAlert.from_bytes C payload with _ | c <;>
      rw [hx] at hE <;> simp at hE
  rw [if_neg h2] at hE
  by_cases h3 : nm = [118, 101, 114, 97, 99, 107]
  · rw [if_pos h3] at hE
    rcases hx : MessageVerack.from_bytes payload with _ | c <;>
      rw [hx] at hE <;> simp at hE
  rw [if_neg h3] at hE
  by_cases h4 : nm = [103, 101, 116, 97, 100, 100, 114]
  · rw [if_pos h4] at hE
    rcases hx : MessageGetAddr.from_bytes payload with _ | c <;>
      rw [hx] at hE <;> simp at hE
  rw [if_neg h4] at hE
  by_cases h5 : nm = [97, 100, 100, 114]
  · rw [if_pos h5] at hE
    rcases hx : MessageAddr.from_bytes payload with _ | c <;>
      rw [hx] at hE <;> simp at hE
  rw [if_neg h5] at hE
  by_cases h6 : nm = [112, 105, 110, 103]
  · rw [if_pos h6] at hE
    rcases hx : MessagePing.from_bytes payload with _ | c <;>
      rw [hx] at hE <;> simp at hE
  rw [if_neg h6] at hE
  by_cases h7 : nm = [112, 111, 110, 103]
  · rw [if_pos h7] at hE
    rcases hx : MessagePong.from_bytes payload with _ | c <;>
      rw [hx] at hE <;> simp at hE
  rw [if_neg h7] at hE
  by_cases h8 : nm = [103, 101, 116, 104, 101, 97, 100, 101, 114, 115]
  · rw [if_pos h8] at hE
    rcases hx : MessageGetHeaders.from_bytes payload with _ | c <;>
      rw [hx] at hE <;> simp at hE
  rw [if_neg h8] at hE
  by_cases h9 : nm = [102, 101, 101, 102, 105, 108, 116, 101, 114]
  · rw [if_pos h9] at hE
    rcases hx : MessageFeeFilter.from_bytes payload with _ | c <;>
      rw [hx] at hE <;> simp at hE
  rw [if_neg h9] at hE
  by_cases h10 : nm = [115, 101, 110, 100, 104, 101, 97, 100, 101, 114, 115]
  · rw [if_pos h10] at hE
    rcases hx : MessageSendHeaders.from_bytes payload with _ | c <;>
      rw [hx] at hE <;> simp at hE
  rw [if_neg h10] at hE
  by_cases h11 : nm = [105, 110, 118]
  · rw [if_pos h11] at hE
    rcases hx : MessageInv.from_bytes payload with _ | c <;>
      rw [hx] at hE <;> simp at hE
  rw [if_neg h11] at hE
  by_cases h12 : nm = [103, 101, 116, 98, 108, 111, 99, 107, 115]
  · rw [if_pos h12] at hE
    rcases hx : MessageGetBlocks.from_bytes payload with _ | c <;>
      rw [hx] at hE <;> simp at hE
  rw [if_neg h12] at hE
  by_cases h13 : nm = [103, 101, 116, 100, 97, 116, 97]
  · rw [if_pos h13] at hE
    rcases hx : MessageGetData.from_bytes payload with _ | c <;>
      rw [hx] at hE <;> simp at hE
  rw [if_neg h13] at hE
  by_cases h14 : nm = [110, 111, 116, 102, 111, 117, 110, 100]
  · rw [if_pos h14] at hE
    rcases hx : MessageNotFound.from_bytes payload with _ | c <;>
      rw [hx] at hE <;> simp at hE
  rw [if_neg h14] at hE
  by_cases h15 : nm = [104, 101, 97, 100, 101, 114, 115]
  · rw [if_pos h15] at hE
    rcases hx : MessageHeaders.from_bytes payload with _ | c <;>
      rw [hx] at hE <;> simp at hE
  rw [if_neg h15] at hE
  by_cases h16 : nm = [98, 108, 111, 99, 107]
  · rw [if_pos h16] at hE
    rcases hx : MessageBlock.from_bytes payload with _ | c <;>
      rw [hx] at hE <;> simp at hE
  rw [if_neg h16] at hE
  simp at hE

/-- C7.  Amended: for an input of at least four bytes, `parse` returns
`Err(InvalidMagicBytes)` iff the little-endian u32 in the first four
bytes is outside the accepted set — which is the THREE networks main
`0xD9B4BEF9`, testnet `0xDAB5BFFA` and testnet3 `0x0709110B`; the
namecoin magic `0xFEB4BEF9` is NOT accepted (counterexample), contrary
to the claim's four-network set. -/
theorem C7_invalid_magic_iff (C : Crypto) (bs : List Nat) (h : 4 ≤ bs.length) :
    parse C bs = some (.error .invalidMagicBytes) ↔
      (fromLE (bs.take 4) ≠ MAGIC_MAIN ∧ fromLE (bs.take 4) ≠ MAGIC_TESTNET ∧
        fromLE (bs.take 4) ≠ MAGIC_TESTNET3) := by
  have hc4 : check_size bs 4 = true := by
    unfold check_size
    simp only [decide_eq_true_eq]
    omega
  unfold parse
  dsimp only
  rw [hc4]
  simp only [Bool.not_true, Bool.false_eq_true, if_false]
  by_cases hm : (fromLE (bs.take 4) = MAGIC_MAIN ||
      fromLE (bs.take 4) = MAGIC_TESTNET ||
      fromLE (bs.take 4) = MAGIC_TESTNET3) = true
  · rw [hm]
    simp only [Bool.not_true, Bool.false_eq_true, if_false]
    simp only [Bool.or_eq_true, decide_eq_true_eq] at hm
    constructor
    · intro hE
      exfalso
      split_ifs at hE <;>
        first
          | exact Option.noConfusion hE
          | exact parseDispatch_not_invalid_magic _ _ _ _ _ hE
          | simp at hE
    · intro hR
      exfalso
      rcases hm with (h1 | h1) | h1
      · exact hR.1 h1
      · exact hR.2.1 h1
      · exact hR.2.2 h1
  · rw [Bool.not_eq_true] at hm
    rw [hm]
    simp only [Bool.not_false]
    simp only [if_true]
    simp only [Bool.or_eq_false_iff, decide_eq_false_iff_not] at hm
    constructor
    · intro _
      exact ⟨hm.1.1, hm.1.2, hm.2⟩
    · intro _
      trivial

def c7Crypto : Crypto := ⟨fun _ => [], fun _ _ _ => some false⟩

theorem C7_invalid_magic_iff_witness :
    4 ≤ ([249, 190, 180, 254] : List Nat).length ∧
    parse c7Crypto [249, 190, 180, 254] =
      some (.error .invalidMagicBytes) :=
  ⟨by decide,
    (C7_invalid_magic_iff c7Crypto [249, 190, 180, 254] (by decide)).mpr
      (by decide)⟩

/-- C7 counterexample: a well-formed envelope start carrying the
namecoin magic `0xFEB4BEF9` (bytes `F9 BE B4 FE`) IS rejected with
`InvalidMagicBytes`, although the claim says the namecoin magic is in
the accepted set. -/
theorem C7_namecoin_rejected :
    parse c7Crypto
      [249, 190, 180, 254, 112, 105, 110, 103, 0, 0, 0, 0, 0, 0, 0, 0,
       8, 0, 0, 0, 140, 130, 12, 128, 7, 0, 0, 0, 0, 0, 0, 0] =
      some (.error .invalidMagicBytes) := rfl

/-! ## valider.rs — the block validator's ordering -/

/-- `valider::Message`. -/
inductive VMessage where
  | wait (hashes : List (List Nat))
  | validate (b : Block)
  | timeout (hash : List Nat)

/-- `HashMap` lookup, on an association list keyed by block hash. -/
def alookup (k : List Nat) (l : List (List Nat × Block)) : Option Block :=
  match l.find? (fun p => p.1 = k) with
  | some p => some p.2
  | none => none

/-- `HashMap::insert`. -/
def ainsert (k : List Nat) (v : Block) (l : List (List Nat × Block)) :
    List (List Nat × Block) :=
  (k, v) :: l.filter (fun p => ¬ p.1 = k)

/-- `HashMap::remove`. -/
def aremove (k : List Nat) (l : List (List Nat × Block)) :
    List (List Nat × Block) :=
  l.filter (fun p => ¬ p.1 = k)

/-- The endless loop of `valider::run`, with fuel, returning the
sequence of hashes sent in `Store` messages.  Each step pops the
waiting FIFO's head; while the head is unavailable it consumes one
incoming message (`Wait` extends the FIFO at the back, `Validate`
inserts the block keyed by `block.hash()`, `Timeout` only notifies the
controller).  An empty FIFO is the `pop_front().unwrap()` panic and an
empty message list blocks forever on `recv()`; both end the run. -/
def valRun : Nat → List VMessage → List (List Nat × Block) →
    List (List Nat) → List (List Nat)
  | 0, _, _, _ => []
  | fuel + 1, msgs, available, waiting =>
      match waiting with
      | [] => []
      | next :: rest =>
          match alookup next available with
          | some _ => next :: valRun fuel msgs (aremove next available) rest
          | none =>
              match msgs with
              | [] => []
              | .wait hashes :: ms =>
                  valRun fuel ms available (next :: (rest ++ hashes))
              | .validate b :: ms =>
                  valRun fuel ms (ainsert (Block.hash b) b available)
                    (next :: rest)
              | .timeout _ :: ms => valRun fuel ms available (next :: rest)

/-- `valider::run`: the first received message must be a `Wait`; any
other first message is discarded with an error log, after which the
first `pop_front().unwrap()` panics on the empty FIFO. -/
def valider_run (fuel : Nat) (msgs : List VMessage) : List (List Nat) :=
  match msgs with
  | [] => []
  | .wait hashes :: ms => valRun fuel ms [] hashes
  | _ :: ms => valRun fuel ms [] []

/-- The concatenation, in arrival order, of the hash lists of the
`Wait` messages. -/
def waitConcat : List VMessage → List (List Nat)
  | [] => []
  | .wait hashes :: ms => hashes ++ waitConcat ms
  | _ :: ms => waitConcat ms

theorem valRun_nil (fuel : Nat) (msgs : List VMessage)
    (available : List (List Nat × Block)) :
    valRun fuel msgs available [] = [] := by
  cases fuel <;> rfl

theorem valRun_prefix (fuel : Nat) (msgs : List VMessage)
    (available : List (List Nat × Block)) (waiting : List (List Nat)) :
    ∃ t, waiting ++ waitConcat msgs = valRun fuel msgs available waiting ++ t := by
  induction fuel generalizing msgs available waiting with
  | zero => exact ⟨waiting ++ waitConcat msgs, rfl⟩
  | succ fuel ih =>
      rcases waiting with _ | ⟨next, rest⟩
      · exact ⟨waitConcat msgs, rfl⟩
      · cases hl : alookup next available with
        | some b =>
            obtain ⟨t, ht⟩ := ih msgs (aremove next available) rest
            refine ⟨t, ?_⟩
            simp only [valRun, hl]
            simp only [List.cons_append]
            rw [ht]
        | none =>
            rcases msgs with _ | ⟨m, ms⟩
            · exact ⟨next :: rest, by simp [valRun, hl, waitConcat]⟩
            · cases m with
              | wait hashes =>
                  obtain ⟨t, ht⟩ := ih ms available (next :: (rest ++ hashes))
                  refine ⟨t, ?_⟩
                  simp only [valRun, hl, waitConcat]
                  rw [← ht]
                  simp [List.cons_append, List.append_assoc]
              | validate b =>
                  obtain ⟨t, ht⟩ :=
                    ih ms (ainsert (Block.hash b) b available) (next :: rest)
                  refine ⟨t, ?_⟩
                  simp only [valRun, hl, waitConcat]
                  rw [← ht]
              | timeout h =>
                  obtain ⟨t, ht⟩ := ih ms available (next :: rest)
                  refine ⟨t, ?_⟩
                  simp only [valRun, hl, waitConcat]
                  rw [← ht]

/-- C8.  The sequence of block hashes the validator hands to storage
(`Store` messages emitted by `valider::run`) is a prefix of the
concatenation, in arrival order, of the hash lists received in `Wait`
messages: blocks are passed to storage in waiting-FIFO order no matter
in which order `Validate` messages deliver the bodies, and a hash is
emitted only once it is the FIFO head and its block is available. -/
theorem C8_valider_store_prefix (fuel : Nat) (msgs : List VMessage) :
    ∃ t, waitConcat msgs = valider_run fuel msgs ++ t := by
  rcases msgs with _ | ⟨m, ms⟩
  · exact ⟨[], rfl⟩
  · cases m with
    | wait hashes =>
        obtain ⟨t, ht⟩ := valRun_prefix fuel ms [] hashes
        exact ⟨t, ht⟩
    | validate b =>
        exact ⟨waitConcat ms, by simp [valider_run, waitConcat, valRun_nil]⟩
    | timeout h =>
        exact ⟨waitConcat ms, by simp [valider_run, waitConcat, valRun_nil]⟩
